import Mathlib

/-!
# Verification of the ghost-wispr session lifecycle engine

Shallow embedding of the Go sources of `sjawhar/ghost-wispr` (session
manager, utterance buffer, speaker-turn grouping, summarization
orchestrator with preset router, and the audio HTTP handler), together
with proofs and refutations of the specification's claims.

Modelling conventions:
* Wall-clock times are `Nat` (UTC seconds).  The Go session-ID format
  `YYYYMMDDhhmmss` at one-second granularity is an injective, strictly
  monotone function of the time, and string comparison of two formatted
  IDs agrees with comparison of the underlying times, so session IDs are
  modelled as the `Nat` timestamp itself.  Go's zero `time.Time{}`
  formats to the year-1 string `"00010101000000"`, which differs from
  the format of every time the code can observe from `time.Now()`; the
  zero value is therefore modelled as `Option.none`.
* Word start/end offsets are `float64` in Go but are only ever copied,
  never computed with; they are modelled as `Int`.
* Go slices become `List`s, `error` results become `Except String`,
  `nil` interface fields become `Option`.
-/

namespace GhostWispr

/-- `transcribe.Word` (src/internal/transcribe/segment.go).  `Speaker` is a
`*int` (absent for unknown speaker). -/
structure Word where
  speaker : Option Int
  punctuatedWord : String
  start : Int
  stop : Int
  deriving Repr, DecidableEq

/-- `transcribe.Segment` (src/internal/transcribe/segment.go). -/
structure Segment where
  speaker : Int
  text : String
  startTime : Int
  endTime : Int
  timestamp : Nat
  deriving Repr, DecidableEq

/-- The speaker id a word contributes: `-1` when the `*int` is nil
(`GroupWordsBySpeaker`'s `speaker := -1; if w.Speaker != nil ...`). -/
def speakerOf (w : Word) : Int :=
  w.speaker.getD (-1)

/-- The segment the Go loop starts for a fresh word `w` (the
`current = Segment{...}` branches of `GroupWordsBySpeaker`); `now` is the
grouping-time wall clock `time.Now()`. -/
def mkSeg (now : Nat) (w : Word) : Segment :=
  { speaker := speakerOf w
    text := w.punctuatedWord
    startTime := w.start
    endTime := w.stop
    timestamp := now }

/-- The `current.Text += " " + w.PunctuatedWord; current.EndTime = w.End`
branch of `GroupWordsBySpeaker`. -/
def appendWord (s : Segment) (w : Word) : Segment :=
  { s with text := s.text ++ " " ++ w.punctuatedWord, endTime := w.stop }

/-- The loop of `GroupWordsBySpeaker` after the first word has seeded
`current` (`started = true`). -/
def groupAux (now : Nat) (cur : Segment) : List Word → List Segment
  | [] => [cur]
  | w :: ws =>
    if speakerOf w = cur.speaker then
      groupAux now (appendWord cur w) ws
    else
      cur :: groupAux now (mkSeg now w) ws

/-- `transcribe.GroupWordsBySpeaker` (src/internal/transcribe/segment.go):
walks the words left-to-right, coalescing adjacent words with identical
speaker ids into one segment; empty input returns nil. -/
def GroupWordsBySpeaker (now : Nat) : List Word → List Segment
  | [] => []
  | w :: ws => groupAux now (mkSeg now w) ws

/-! ### Specification-side view: maximal same-speaker runs

`speakerRuns` partitions a word list into maximal adjacent runs of equal
speaker id, each run represented as head word plus rest so that
non-emptiness is structural.  It is the specification device used to
state the grouping contract; `group_eq_runs` below connects it to the
code-derived `GroupWordsBySpeaker`. -/

/-- One step of building the run partition, from the right. -/
def runStep (w : Word) : List (Word × List Word) → List (Word × List Word)
  | [] => [(w, [])]
  | (v, r) :: rs =>
    if speakerOf w = speakerOf v then (w, v :: r) :: rs
    else (w, []) :: (v, r) :: rs

/-- Partition a word list into maximal adjacent equal-speaker runs. -/
def speakerRuns (ws : List Word) : List (Word × List Word) :=
  ws.foldr runStep []

/-- The word list a run stands for. -/
def runWords (r : Word × List Word) : List Word :=
  r.1 :: r.2

/-- The segment a (non-empty) run denotes: speaker of the first word,
text the space-separated punctuated words, start from the first word,
end from the last word. -/
def segOfRun (now : Nat) (r : Word × List Word) : Segment :=
  { speaker := speakerOf r.1
    text := (r.2.map Word.punctuatedWord).foldl (fun a b => a ++ " " ++ b) r.1.punctuatedWord
    startTime := r.1.start
    endTime := (r.2.getLastD r.1).stop
    timestamp := now }

theorem speakerRuns_nil : speakerRuns [] = [] := rfl

theorem speakerRuns_cons (w : Word) (ws : List Word) :
    speakerRuns (w :: ws) = runStep w (speakerRuns ws) := rfl

/-- Joining the runs gives back the original word list: no word is lost,
duplicated, or reordered by the run partition. -/
theorem join_speakerRuns (ws : List Word) :
    ((speakerRuns ws).map runWords).flatten = ws := by
  induction ws with
  | nil => rfl
  | cons w ws ih =>
    rw [speakerRuns_cons]
    cases h : speakerRuns ws with
    | nil =>
      rw [h] at ih
      simp only [List.map_nil, List.flatten] at ih
      simp [runStep, runWords, ← ih]
    | cons r rs =>
      obtain ⟨v, rest⟩ := r
      rw [h] at ih
      by_cases hsp : speakerOf w = speakerOf v
      · simp [runStep, hsp, runWords] at ih ⊢
        simpa using ih
      · simp [runStep, hsp, runWords] at ih ⊢
        simpa using ih

/-- Every word inside a run has the speaker id of the run's head. -/
def uniformRun (r : Word × List Word) : Prop :=
  ∀ w ∈ r.2, speakerOf w = speakerOf r.1

/-- Adjacent runs carry distinct speaker ids. -/
def runsWellFormed : List (Word × List Word) → Prop
  | [] => True
  | [r] => uniformRun r
  | r :: r' :: rs => uniformRun r ∧ speakerOf r.1 ≠ speakerOf r'.1 ∧ runsWellFormed (r' :: rs)

theorem runsWellFormed_speakerRuns (ws : List Word) :
    runsWellFormed (speakerRuns ws) := by
  induction ws with
  | nil => trivial
  | cons w ws ih =>
    rw [speakerRuns_cons]
    cases h : speakerRuns ws with
    | nil =>
      simp only [runStep, runsWellFormed, uniformRun]
      intro x hx
      simp at hx
    | cons r rs =>
      rw [h] at ih
      obtain ⟨v, rest⟩ := r
      by_cases hsp : speakerOf w = speakerOf v
      · simp only [runStep, hsp, if_pos]
        cases rs with
        | nil =>
          simp only [runsWellFormed, uniformRun] at ih ⊢
          intro x hx
          simp only [List.mem_cons] at hx
          rcases hx with rfl | hx
          · exact hsp.symm
          · exact (ih x hx).trans hsp.symm
        | cons r' rs' =>
          obtain ⟨hu, hne, hwf⟩ := ih
          refine ⟨?_, ?_, hwf⟩
          · intro x hx
            simp only [List.mem_cons] at hx
            rcases hx with rfl | hx
            · exact hsp.symm
            · exact (hu x hx).trans hsp.symm
          · simpa [hsp] using hne
      · simp only [runStep, hsp, if_neg, not_false_iff]
        cases rs with
        | nil =>
          refine ⟨?_, hsp, ih⟩
          intro x hx
          simp at hx
        | cons r' rs' =>
          refine ⟨?_, hsp, ih⟩
          intro x hx
          simp at hx

theorem mkSeg_eq_segOfRun (now : Nat) (w : Word) :
    mkSeg now w = segOfRun now (w, []) := rfl

theorem appendWord_segOfRun (now : Nat) (h w : Word) (t : List Word) :
    appendWord (segOfRun now (h, t)) w = segOfRun now (h, t ++ [w]) := by
  simp [appendWord, segOfRun, List.foldl_append, List.getLastD_concat]

theorem segOfRun_speaker (now : Nat) (h : Word) (t : List Word) :
    (segOfRun now (h, t)).speaker = speakerOf h := rfl

/-- What `groupAux` produces when seeded with the partial segment of the
run `(h, t)`, expressed through the run partition of the remaining
words. -/
def mergeHead (now : Nat) (h : Word) (t : List Word) :
    List (Word × List Word) → List Segment
  | [] => [segOfRun now (h, t)]
  | r :: rs =>
    if speakerOf r.1 = speakerOf h then
      segOfRun now (h, t ++ r.1 :: r.2) :: rs.map (segOfRun now)
    else
      segOfRun now (h, t) :: ((r :: rs).map (segOfRun now))

theorem groupAux_eq_mergeHead (now : Nat) (ws : List Word) :
    ∀ (h : Word) (t : List Word),
      groupAux now (segOfRun now (h, t)) ws = mergeHead now h t (speakerRuns ws) := by
  induction ws with
  | nil => intro h t; rfl
  | cons w ws ih =>
    intro h t
    rw [speakerRuns_cons]
    by_cases hsp : speakerOf w = speakerOf h
    · have hcur : speakerOf w = (segOfRun now (h, t)).speaker := hsp
      rw [groupAux, if_pos hcur, appendWord_segOfRun, ih h (t ++ [w])]
      cases hr : speakerRuns ws with
      | nil =>
        simp only [runStep, mergeHead, if_pos hsp]
        simp
      | cons r rs =>
        obtain ⟨v, rest⟩ := r
        by_cases hvw : speakerOf w = speakerOf v
        · have hvh : speakerOf v = speakerOf h := hvw.symm.trans hsp
          simp only [runStep, if_pos hvw]
          simp only [mergeHead, if_pos hvh, if_pos hsp]
          simp
        · have hvh : ¬ speakerOf v = speakerOf h := fun e => hvw (hsp.trans e.symm)
          simp only [runStep, if_neg hvw]
          simp only [mergeHead, if_neg hvh, if_pos hsp]
    · have hcur : ¬ speakerOf w = (segOfRun now (h, t)).speaker := hsp
      rw [groupAux, if_neg hcur, mkSeg_eq_segOfRun, ih w []]
      cases hr : speakerRuns ws with
      | nil =>
        simp only [runStep, mergeHead, if_neg hsp]
        simp [mergeHead]
      | cons r rs =>
        obtain ⟨v, rest⟩ := r
        by_cases hvw : speakerOf w = speakerOf v
        · have hvw' : speakerOf v = speakerOf w := hvw.symm
          simp only [runStep, if_pos hvw]
          simp only [mergeHead, if_pos hvw', if_neg hsp]
          simp [if_pos hvw']
        · have hvw' : ¬ speakerOf v = speakerOf w := fun e => hvw e.symm
          simp only [runStep, if_neg hvw]
          simp only [mergeHead, if_neg hvw', if_neg hsp]
          simp [if_neg hvw']


/-- The code's grouping loop computes exactly one segment per maximal
same-speaker run. -/
theorem group_eq_runs (now : Nat) (ws : List Word) :
    GroupWordsBySpeaker now ws = (speakerRuns ws).map (segOfRun now) := by
  cases ws with
  | nil => rfl
  | cons w ws =>
    have hfirst : GroupWordsBySpeaker now (w :: ws)
        = groupAux now (segOfRun now (w, [])) ws := by
      rw [GroupWordsBySpeaker, mkSeg_eq_segOfRun]
    rw [hfirst, groupAux_eq_mergeHead, speakerRuns_cons]
    cases hr : speakerRuns ws with
    | nil => rfl
    | cons r rs =>
      obtain ⟨v, rest⟩ := r
      by_cases hvw : speakerOf v = speakerOf w
      · have hww : speakerOf w = speakerOf v := hvw.symm
        rw [runStep, if_pos hww, mergeHead, if_pos hvw]
        rfl
      · have hww : ¬ speakerOf w = speakerOf v := fun e => hvw e.symm
        rw [runStep, if_neg hww, mergeHead, if_neg hvw]
        rfl

/-- Space-separated concatenation (specification-side reading of the
`current.Text += " " + w` accumulation). -/
def joinSpace : List String → String
  | [] => ""
  | [x] => x
  | x :: y :: xs => x ++ " " ++ joinSpace (y :: xs)

theorem string_append_assoc (a b c : String) : a ++ b ++ c = a ++ (b ++ c) := by
  apply String.ext
  simp [List.append_assoc]

theorem foldl_joinSpace (l : List String) :
    ∀ x : String, l.foldl (fun a b => a ++ " " ++ b) x = joinSpace (x :: l) := by
  induction l with
  | nil => intro x; rfl
  | cons y ys ih =>
    intro x
    have : List.foldl (fun a b => a ++ " " ++ b) x (y :: ys)
        = List.foldl (fun a b => a ++ " " ++ b) (x ++ " " ++ y) ys := rfl
    rw [this, ih (x ++ " " ++ y)]
    cases ys with
    | nil => rfl
    | cons z zs =>
      show (x ++ " " ++ y) ++ " " ++ joinSpace (z :: zs)
          = x ++ " " ++ (y ++ " " ++ joinSpace (z :: zs))
      simp [string_append_assoc]

theorem segOfRun_text (now : Nat) (r : Word × List Word) :
    (segOfRun now r).text = joinSpace ((runWords r).map Word.punctuatedWord) := by
  obtain ⟨h, t⟩ := r
  show (List.map Word.punctuatedWord t).foldl (fun a b => a ++ " " ++ b) h.punctuatedWord
      = joinSpace (h.punctuatedWord :: t.map Word.punctuatedWord)
  exact foldl_joinSpace _ _

theorem runsWellFormed_chain (rs : List (Word × List Word)) (hw : runsWellFormed rs) :
    List.Chain' (fun r r' : Word × List Word => speakerOf r.1 ≠ speakerOf r'.1) rs := by
  induction rs with
  | nil => exact List.chain'_nil
  | cons r rs ih =>
    cases rs with
    | nil => simp
    | cons r' rs' =>
      obtain ⟨_, hne, hwf⟩ := hw
      exact List.Chain'.cons hne (ih hwf)

/-- C8: for every word list `ws`, `GroupWordsBySpeaker` returns one
segment per maximal same-speaker run, the runs concatenate back to `ws`
in order (each word appears exactly once, in arrival order), adjacent
segments have distinct speaker ids, a missing speaker id maps to `-1`,
each segment's start/end times come from its first/last word, its text is
the space-separated concatenation of the punctuated forms, and empty
input yields empty output. -/
theorem c8_grouping_contract (now : Nat) (ws : List Word) :
    GroupWordsBySpeaker now ws = (speakerRuns ws).map (segOfRun now)
    ∧ ((speakerRuns ws).map runWords).flatten = ws
    ∧ List.Chain' (fun a b : Segment => a.speaker ≠ b.speaker) (GroupWordsBySpeaker now ws)
    ∧ (∀ r ∈ speakerRuns ws,
        (segOfRun now r).speaker = r.1.speaker.getD (-1)
        ∧ (segOfRun now r).text = joinSpace ((runWords r).map Word.punctuatedWord)
        ∧ (segOfRun now r).startTime = r.1.start
        ∧ (segOfRun now r).endTime = ((runWords r).getLastD r.1).stop)
    ∧ GroupWordsBySpeaker now ([] : List Word) = [] := by
  refine ⟨group_eq_runs now ws, join_speakerRuns ws, ?_, ?_, rfl⟩
  · rw [group_eq_runs, List.chain'_map]
    exact runsWellFormed_chain _ (runsWellFormed_speakerRuns ws)
  · intro r _
    refine ⟨rfl, segOfRun_text now r, rfl, ?_⟩
    obtain ⟨h, t⟩ := r
    show (t.getLastD h).stop = ((h :: t).getLastD h).stop
    rw [List.getLastD_cons]

/-! ### Utterance buffer (src/internal/session/buffer.go)

The mutex only serialises access; under the sequential semantics of this
embedding the buffer is its word list. -/

abbrev UtteranceBuffer : Type := List Word

/-- `NewUtteranceBuffer`. -/
def UtteranceBuffer.new : UtteranceBuffer := ([] : List Word)

/-- `AddWords` appends words from an is_final message. -/
def UtteranceBuffer.addWords (b : UtteranceBuffer) (ws : List Word) : UtteranceBuffer :=
  (b : List Word) ++ ws

/-- `Flush` returns all accumulated words and resets the buffer. -/
def UtteranceBuffer.flush (b : UtteranceBuffer) : List Word × UtteranceBuffer :=
  ((b : List Word), UtteranceBuffer.new)

/-- `Len`. -/
def UtteranceBuffer.len (b : UtteranceBuffer) : Nat :=
  (b : List Word).length

/-! ### The persistent store, hub events and detector calls -/

/-- Summary status constants (storage package). -/
def SummaryPending : String := "pending"

def SummaryRunning : String := "running"

def SummaryCompleted : String := "completed"

def SummaryFailed : String := "failed"

/-- Events a hub subscriber observes, in broadcast order
(`EventBroadcaster` in src/internal/session/types.go). -/
inductive Event where
  | sessionStarted (sessionID : Nat)
  | sessionEnded (sessionID : Nat) (duration : Int)
  | liveTranscript (seg : Segment)
  | liveTranscriptInterim (speaker : Int) (text : String) (startTime : Int)
  | summaryReady (sessionID : Nat) (summary : String) (status : String) (preset : String)
  deriving Repr, DecidableEq

/-- Calls the Manager makes into the silence detector.  The claims only
need to observe whether the detector was touched, so the embedding logs
the calls. -/
inductive DetectorCall where
  | onSpeech
  | onUtteranceEnd
  deriving Repr, DecidableEq

/-- The SQLite store as observed through the `session.Store` interface:
an append-only journal of the successful mutations. -/
structure StoreState where
  sessions : List (Nat × Nat)
  endedSessions : List (Nat × Nat × String)
  segments : List (Nat × Segment)
  summaryUpdates : List (Nat × String × String × String)
  deriving Repr, DecidableEq

def StoreState.empty : StoreState := ⟨[], [], [], []⟩

def StoreState.sessionIds (st : StoreState) : List Nat :=
  st.sessions.map Prod.fst

/-- `Store.CreateSession`: an INSERT against the `id TEXT PRIMARY KEY`
column — it fails on a duplicate id. -/
def StoreState.createSession (st : StoreState) (id startedAt : Nat) :
    Except String StoreState :=
  if id ∈ st.sessionIds then .error "create session: duplicate id"
  else .ok { st with sessions := st.sessions ++ [(id, startedAt)] }

/-- `Store.EndSession`: UPDATE, `sql.ErrNoRows` when the id is unknown;
`fault` injects an I/O failure (the tests' `endSessionErr`). -/
def StoreState.endSession (st : StoreState) (fault : Bool) (id endedAt : Nat)
    (audioPath : String) : Except String StoreState :=
  if fault then .error "end session: store failure"
  else if id ∈ st.sessionIds then
    .ok { st with endedSessions := st.endedSessions ++ [(id, endedAt, audioPath)] }
  else .error "end session: no rows"

/-- `Store.AppendSegment`: INSERT into `segments`; `fault` injects an
I/O failure. -/
def StoreState.appendSegment (st : StoreState) (fault : Bool) (id : Nat) (seg : Segment) :
    Except String StoreState :=
  if fault then .error "append segment: store failure"
  else .ok { st with segments := st.segments ++ [(id, seg)] }

/-- `Store.GetSegments`: all segments of the session in insertion order. -/
def StoreState.getSegments (st : StoreState) (id : Nat) : List Segment :=
  (st.segments.filter (fun p => p.1 = id)).map Prod.snd

/-- `Store.UpdateSummary`; `fault` injects an I/O failure. -/
def StoreState.updateSummary (st : StoreState) (fault : Bool) (id : Nat)
    (summary status preset : String) : Except String StoreState :=
  if fault then .error "update summary: store failure"
  else .ok { st with summaryUpdates := st.summaryUpdates ++ [(id, summary, status, preset)] }

/-! ### Session manager (src/internal/session/manager.go)

Sequential semantics: each public operation is a function from manager
state to manager state plus an optional error, parameterised by an
environment carrying `time.Now()` and the injected behaviour of the
recorder and the store (the interfaces a test would mock). -/

/-- Go's `strings.TrimSpace`: drop leading and trailing white space
(an executable model — core's `String.trim` does not reduce in the
kernel). -/
def trimSpace (s : String) : String :=
  ⟨((s.data.dropWhile Char.isWhitespace).reverse.dropWhile Char.isWhitespace).reverse⟩

/-- `now.UTC().Format("20060102150405")` at one-second granularity:
injective and strictly monotone on the UTC second, with string
comparison agreeing with comparison of the underlying times, so it is
modelled as the identity on the `Nat` second. -/
def sessionIDFormat (t : Nat) : Nat := t

/-- In-memory manager state: the utterance buffer, the mutex-protected
active-session fields, plus the observable world (store journal, hub
broadcast log, detector call log).  `currentSessionID = none` models
`""`; `currentStartedAt = none` models the zero `time.Time{}`. -/
structure MState where
  buffer : UtteranceBuffer
  currentSessionID : Option Nat
  currentStartedAt : Option Nat
  store : StoreState
  events : List Event
  detectorCalls : List DetectorCall
  deriving Repr, DecidableEq

def MState.initial : MState :=
  ⟨UtteranceBuffer.new, none, none, StoreState.empty, [], []⟩

/-- Per-call environment: the wall clock and the injected collaborator
behaviour (`hasRecorder = false` models a nil recorder). -/
structure CallEnv where
  now : Nat
  hasRecorder : Bool
  recStartFails : Bool
  recEndFails : Bool
  recEndPath : String
  createFault : Bool := false
  appendFault : Bool := false
  endStoreFault : Bool := false
  deriving Repr, DecidableEq

/-- `createFault` is not a separate Go code path: `CreateSession` fails
exactly when the INSERT fails, which the store model raises on a
duplicate primary key; the flag lets a run inject other I/O failures. -/
def StoreState.createSessionEnv (st : StoreState) (env : CallEnv) (id startedAt : Nat) :
    Except String StoreState :=
  if env.createFault then .error "create session: store failure"
  else st.createSession id startedAt

/-- `Manager.currentSession()` (`""` ↦ `0`). -/
def MState.currentSession (s : MState) : Nat :=
  s.currentSessionID.getD 0

/-- `Manager.ensureSessionStarted(now)`: compute the candidate session
id (with the one-second bump when the formatted `currentStartedAt`
equals it), set the in-memory fields, create the session row, start the
recorder (rolling back on failure), then broadcast `session_started`. -/
def ensureSessionStarted (env : CallEnv) (now : Nat) (s : MState) :
    MState × Option String :=
  if s.currentSessionID.isSome then (s, none)
  else
    let candidate := sessionIDFormat now
    let sessionID :=
      match s.currentStartedAt with
      | some t => if sessionIDFormat t = candidate then sessionIDFormat (now + 1) else candidate
      | none => candidate
    let startedAt := now
    let s₁ := { s with currentSessionID := some sessionID, currentStartedAt := some startedAt }
    match s₁.store.createSessionEnv env sessionID startedAt with
    | .error e => ({ s₁ with currentSessionID := none, currentStartedAt := none }, some e)
    | .ok st =>
      let s₂ := { s₁ with store := st }
      if env.hasRecorder ∧ env.recStartFails then
        let s₃ := { s₂ with currentSessionID := none, currentStartedAt := none }
        let s₄ :=
          match s₃.store.endSession env.endStoreFault sessionID env.now "" with
          | .ok st' => { s₃ with store := st' }
          | .error _ => s₃
        (s₄, some "start audio recorder session")
      else
        ({ s₂ with events := s₂.events ++ [.sessionStarted sessionID] }, none)

/-- The per-segment body of `flushBuffer`'s loop: stamp, ensure a
session, append, broadcast `live_transcript`. -/
def flushLoop (env : CallEnv) : List Segment → MState → MState × Option String
  | [], s => (s, none)
  | seg :: rest, s =>
    match ensureSessionStarted env env.now s with
    | (s₁, some e) => (s₁, some e)
    | (s₁, none) =>
      match s₁.store.appendSegment env.appendFault s₁.currentSession seg with
      | .error e => (s₁, some e)
      | .ok st =>
        let s₂ := { s₁ with store := st }
        let s₃ := { s₂ with events := s₂.events ++ [.liveTranscript seg] }
        flushLoop env rest s₃

/-- `Manager.flushBuffer()`: drain the buffer, group into speaker-turn
segments (each stamped with the wall clock — the per-iteration
`time.Now()` calls are modelled as the single `env.now`), then persist
and broadcast each. -/
def flushBuffer (env : CallEnv) (s : MState) : MState × Option String :=
  let (words, b) := s.buffer.flush
  let s₀ := { s with buffer := b }
  if words.isEmpty then (s₀, none)
  else
    let segments := GroupWordsBySpeaker env.now words
    if segments.isEmpty then (s₀, none)
    else flushLoop env segments s₀

/-- One alternative of a Deepgram `MessageResponse`. -/
structure Alternative where
  transcript : String
  words : List Word
  deriving Repr, DecidableEq

/-- The fields of `api.MessageResponse` the Manager reads. -/
structure MessageResponse where
  isFinal : Bool
  speechFinal : Bool
  alternatives : List Alternative
  deriving Repr, DecidableEq

/-- `Manager.Message(mr)` (src/internal/session/manager.go lines 52-99).
Go's `strings.TrimSpace` (Unicode white space) is modelled by
`String.trim`. -/
def Message (env : CallEnv) (mr : MessageResponse) (s : MState) :
    MState × Option String :=
  match mr.alternatives with
  | [] => (s, none)
  | alt :: _ =>
    let sentence := trimSpace alt.transcript
    if sentence = "" then (s, none)
    else
      let words := alt.words
      if !mr.isFinal then
        let speaker :=
          match words with
          | [] => -1
          | w :: _ => w.speaker.getD (-1)
        let startTime :=
          match words with
          | [] => 0
          | w :: _ => w.start
        ({ s with events := s.events ++ [.liveTranscriptInterim speaker sentence startTime] },
          none)
      else
        let s₁ := { s with buffer := s.buffer.addWords words }
        let s₂ := { s₁ with detectorCalls := s₁.detectorCalls ++ [.onSpeech] }
        if mr.speechFinal then flushBuffer env s₂ else (s₂, none)

/-- `Manager.UtteranceEnd`: flush, then arm the silence timer. -/
def UtteranceEnd (env : CallEnv) (s : MState) : MState × Option String :=
  match flushBuffer env s with
  | (s₁, some e) => (s₁, some e)
  | (s₁, none) =>
    ({ s₁ with detectorCalls := s₁.detectorCalls ++ [.onUtteranceEnd] }, none)

/-- `Manager.endCurrentSession(ctx)`: capture the active session (nil
when none), finalize audio, write the durable end record (leaving the
in-memory state intact on failure), clear the in-memory state, broadcast
`session_ended`, and detach the summary task.  The third component is
the session id handed to the detached `go m.generateSummary(...)`. -/
def endCurrentSession (env : CallEnv) (s : MState) :
    MState × Option String × Option Nat :=
  match s.currentSessionID with
  | none => (s, none, none)
  | some sessionID =>
    let startedAt := s.currentStartedAt
    let endedAt := env.now
    if env.hasRecorder ∧ env.recEndFails then
      (s, some "end audio recorder session", none)
    else
      let audioPath := if env.hasRecorder then env.recEndPath else ""
      match s.store.endSession env.endStoreFault sessionID endedAt audioPath with
      | .error e => (s, some e, none)
      | .ok st =>
        let s₁ := { s with store := st, currentSessionID := none, currentStartedAt := none }
        let duration : Int := (endedAt : Int) - (startedAt.getD 0 : Nat)
        let s₂ := { s₁ with events := s₁.events ++ [.sessionEnded sessionID duration] }
        (s₂, none, some sessionID)

/-- `Manager.ForceEndSession(ctx)` (src/internal/session/manager.go
lines 138-140): it is exactly `endCurrentSession`. -/
def ForceEndSession (env : CallEnv) (s : MState) :
    MState × Option String × Option Nat :=
  endCurrentSession env s

/-! ### Summary-generation task (`Manager.generateSummary`) -/

/-- The three values `Summarizer.Summarize` returns: summary text,
preset name, and whether it errored (the preset is reported even
alongside an error). -/
structure SummarizeOutcome where
  summary : String
  preset : String
  isErr : Bool
  deriving Repr, DecidableEq

/-- Environment of one `generateSummary` run: the summarizer behaviour
as a function of the transcript (`none` = nil summarizer), plus injected
store faults. -/
structure GenEnv where
  summarizer : Option (String → SummarizeOutcome)
  getSegmentsFault : Bool := false
  runningWriteFault : Bool := false
  completedWriteFault : Bool := false
  failedWriteFault : Bool := false
  noSummarizerWriteFault : Bool := false

/-- An `UpdateSummary` call whose error the Go code discards
(`_ = m.store.UpdateSummary(...)`): on failure the store is unchanged. -/
def StoreState.tryUpdateSummary (st : StoreState) (fault : Bool) (id : Nat)
    (summary status preset : String) : StoreState :=
  match st.updateSummary fault id summary status preset with
  | .ok st' => st'
  | .error _ => st

/-- The transcript `generateSummary` builds: non-blank segment texts
joined with trailing newlines. -/
def transcriptOf (segs : List Segment) : String :=
  (segs.filter (fun sg => ¬ trimSpace sg.text = "")).foldl
    (fun acc sg => acc ++ sg.text ++ "\n") ""

/-- `Manager.generateSummary(ctx, sessionID)` (manager.go lines
222-260), run to completion on the detached task. -/
def generateSummary (genv : GenEnv) (sessionID : Nat) (s : MState) : MState :=
  match genv.summarizer with
  | none =>
    { s with store :=
        s.store.tryUpdateSummary genv.noSummarizerWriteFault sessionID "" SummaryCompleted "" }
  | some summarize =>
    let s₁ := { s with store :=
      s.store.tryUpdateSummary genv.runningWriteFault sessionID "" SummaryRunning "" }
    if genv.getSegmentsFault then
      let s₂ := { s₁ with store :=
        s₁.store.tryUpdateSummary genv.failedWriteFault sessionID "" SummaryFailed "" }
      { s₂ with events := s₂.events ++ [.summaryReady sessionID "" SummaryFailed ""] }
    else
      let transcript := transcriptOf (s₁.store.getSegments sessionID)
      let outcome := summarize transcript
      if outcome.isErr then
        let s₂ := { s₁ with store :=
          s₁.store.tryUpdateSummary genv.failedWriteFault sessionID "" SummaryFailed outcome.preset }
        { s₂ with events :=
            s₂.events ++ [.summaryReady sessionID "" SummaryFailed outcome.preset] }
      else
        match s₁.store.updateSummary genv.completedWriteFault sessionID
            outcome.summary SummaryCompleted outcome.preset with
        | .error _ =>
          let s₂ := { s₁ with store :=
            s₁.store.tryUpdateSummary genv.failedWriteFault sessionID "" SummaryFailed outcome.preset }
          { s₂ with events :=
              s₂.events ++ [.summaryReady sessionID "" SummaryFailed outcome.preset] }
        | .ok st =>
          let s₂ := { s₁ with store := st }
          { s₂ with events :=
              s₂.events ++ [.summaryReady sessionID outcome.summary SummaryCompleted outcome.preset] }

/-- `endCurrentSession` followed by the detached `generateSummary` task
run to completion (the `go` statement happens-after the `session_ended`
broadcast, so the sequentialisation preserves every per-subscriber
ordering fact). -/
def endCurrentSessionAndSummarize (env : CallEnv) (genv : GenEnv) (s : MState) :
    MState × Option String :=
  match endCurrentSession env s with
  | (s₁, e, none) => (s₁, e)
  | (s₁, e, some sessionID) => (generateSummary genv sessionID s₁, e)

/-! ### Shared concrete fixtures -/

/-- An environment with a nil recorder and a healthy store at time `t`. -/
def plainEnv (t : Nat) : CallEnv :=
  { now := t, hasRecorder := false, recStartFails := false, recEndFails := false,
    recEndPath := "" }

/-- A one-word speaker-0 recognition chunk. -/
def chunk (isFinal speechFinal : Bool) (txt : String) (ws : List Word) : MessageResponse :=
  ⟨isFinal, speechFinal, [⟨txt, ws⟩]⟩

def word0 : Word := ⟨some 0, "hello", 0, 1⟩

def word1 : Word := ⟨some 0, "world", 1, 2⟩

/-! ### C10 — blank events are ignored without any effect -/

/-- C10: a recognition event with no alternatives, or whose best
alternative's transcript trims to the empty string, makes
`Manager.Message` return nil and leave the buffer, the detector call
log, the store and the hub broadcast log exactly as they were. -/
theorem c10_blank_event_no_effect (env : CallEnv) (mr : MessageResponse) (s : MState)
    (h : mr.alternatives = [] ∨
      ∃ alt rest, mr.alternatives = alt :: rest ∧ trimSpace alt.transcript = "") :
    Message env mr s = (s, none) := by
  rcases h with h | ⟨alt, rest, halts, htrim⟩
  · unfold Message
    rw [h]
  · unfold Message
    rw [halts]
    simp [htrim]

/-- Witness for C10 at a whitespace-only interim event. -/
theorem c10_blank_event_no_effect_witness :
    Message (plainEnv 50) (chunk false false "  " [word0]) MState.initial
      = (MState.initial, none) :=
  c10_blank_event_no_effect (plainEnv 50) (chunk false false "  " [word0]) MState.initial
    (Or.inr ⟨⟨"  ", [word0]⟩, [], rfl, by decide⟩)

/-! ### C2 — ForceEndSession: code bug

`session/errors.go` documents `ErrNoActiveSession` as "returned by
ForceEndSession when no session is active", the HTTP handler for
`POST /api/session/end` maps that error to 409, and the repository's
test `TestManager_ForceEndFlushesBuffer` asserts that `ForceEndSession`
flushes the buffer before ending.  The shipped
`Manager.ForceEndSession` does neither: it is a bare call to
`endCurrentSession`, which returns nil when no session is active and
never touches the buffer. -/

/-- C2 (code behaviour at the failing input): after buffering one word
via an `is_final=true, speech_final=false` event with no active session,
`ForceEndSession` returns nil (not a no-active-session error), leaves
the word in the buffer, and persists no segment. -/
theorem c2_forceEnd_code_behaviour :
    (ForceEndSession (plainEnv 101)
        (Message (plainEnv 100) (chunk true false "before force end" [word0]) MState.initial).1)
      = ((Message (plainEnv 100) (chunk true false "before force end" [word0]) MState.initial).1,
          none, none)
    ∧ (Message (plainEnv 100)
        (chunk true false "before force end" [word0]) MState.initial).1.buffer = [word0]
    ∧ (Message (plainEnv 100)
        (chunk true false "before force end" [word0]) MState.initial).1.store.segments = [] := by
  refine ⟨?_, ?_, ?_⟩ <;> decide

/-! ### C5 — a failed durable end preserves the in-memory session -/

/-- C5: when `Store.EndSession` fails inside `endCurrentSession` (and
the recorder finalize did not already fail), the manager returns the
error and the state — including `currentSessionID` — is exactly
unchanged: the session is not silently forgotten. -/
theorem c5_end_failure_preserves_state (env : CallEnv) (s : MState) (id : Nat)
    (hid : s.currentSessionID = some id)
    (hrec : ¬ (env.hasRecorder ∧ env.recEndFails))
    (hfault : env.endStoreFault = true) :
    endCurrentSession env s = (s, some "end session: store failure", none)
    ∧ (endCurrentSession env s).1.currentSessionID = some id := by
  have hmain : endCurrentSession env s = (s, some "end session: store failure", none) := by
    unfold endCurrentSession StoreState.endSession
    rw [hid, hfault]
    simp [hrec]
  exact ⟨hmain, by rw [hmain]; exact hid⟩

/-- Witness for C5: a concrete active session and a store whose
`EndSession` fails. -/
theorem c5_end_failure_preserves_state_witness :
    endCurrentSession { plainEnv 9 with endStoreFault := true }
        ⟨[], some 5, some 5, ⟨[(5, 5)], [], [], []⟩, [], []⟩
      = (⟨[], some 5, some 5, ⟨[(5, 5)], [], [], []⟩, [], []⟩,
          some "end session: store failure", none) :=
  (c5_end_failure_preserves_state { plainEnv 9 with endStoreFault := true }
    ⟨[], some 5, some 5, ⟨[(5, 5)], [], [], []⟩, [], []⟩ 5 rfl (by decide) rfl).1

/-! ### C1 — buffering discipline -/

/-- The words an event contributes to the buffer: none when the event is
ignored (no alternatives / blank transcript), its word list otherwise. -/
def effectiveWords (mr : MessageResponse) : List Word :=
  match mr.alternatives with
  | [] => []
  | alt :: _ => if trimSpace alt.transcript = "" then [] else alt.words

/-- Feed a sequence of recognition events to `Manager.Message`,
stopping at the first error (each event with its own clock/environment). -/
def processAll : List (CallEnv × MessageResponse) → MState → MState × Option String
  | [], s => (s, none)
  | p :: rest, s =>
    match Message p.1 p.2 s with
    | (s', none) => processAll rest s'
    | (s', some e) => (s', some e)

theorem message_buffering (env : CallEnv) (mr : MessageResponse) (s : MState)
    (hf : mr.isFinal = true) (hsf : mr.speechFinal = false) :
    (Message env mr s).2 = none
    ∧ (Message env mr s).1.store = s.store
    ∧ (Message env mr s).1.buffer = s.buffer ++ effectiveWords mr
    ∧ (Message env mr s).1.currentSessionID = s.currentSessionID
    ∧ (Message env mr s).1.currentStartedAt = s.currentStartedAt
    ∧ (Message env mr s).1.events = s.events := by
  unfold Message effectiveWords
  cases halt : mr.alternatives with
  | nil => simp
  | cons alt rest =>
    by_cases htr : trimSpace alt.transcript = ""
    · simp [htr]
    · simp [htr, hf, hsf, UtteranceBuffer.addWords]

theorem processAll_buffering (evs : List (CallEnv × MessageResponse)) :
    ∀ s : MState, (∀ p ∈ evs, p.2.isFinal = true ∧ p.2.speechFinal = false) →
      (processAll evs s).2 = none
      ∧ (processAll evs s).1.store = s.store
      ∧ (processAll evs s).1.buffer
          = s.buffer ++ (evs.map (fun p => effectiveWords p.2)).flatten
      ∧ (processAll evs s).1.currentSessionID = s.currentSessionID
      ∧ (processAll evs s).1.currentStartedAt = s.currentStartedAt
      ∧ (processAll evs s).1.events = s.events := by
  induction evs with
  | nil => intro s _; simp [processAll]
  | cons p rest ih =>
    intro s hall
    obtain ⟨hf, hsf⟩ := hall p (List.mem_cons_self p rest)
    have hm := message_buffering p.1 p.2 s hf hsf
    obtain ⟨h2, hst, hbuf, hid, hsa, hev⟩ := hm
    have hrest := ih (Message p.1 p.2 s).1 (fun q hq => hall q (List.mem_cons_of_mem p hq))
    obtain ⟨r2, rst, rbuf, rid, rsa, rev⟩ := hrest
    unfold processAll
    cases hmr : Message p.1 p.2 s with
    | mk s' e =>
      rw [hmr] at h2 hst hbuf hid hsa hev
      simp only at h2
      subst h2
      rw [hmr] at rst rbuf rid rsa rev r2
      refine ⟨r2, ?_, ?_, ?_, ?_, ?_⟩
      · rw [rst, hst]
      · rw [rbuf, hbuf, List.map_cons, List.flatten_cons, List.append_assoc]
      · rw [rid, hid]
      · rw [rsa, hsa]
      · rw [rev, hev]

/-- The session id a flush at clock `env.now` uses: the active one if a
session exists, otherwise the candidate `ensureSessionStarted`
computes. -/
def flushSessionID (env : CallEnv) (s : MState) : Nat :=
  match s.currentSessionID with
  | some id => id
  | none =>
    match s.currentStartedAt with
    | some t =>
      if sessionIDFormat t = sessionIDFormat env.now then sessionIDFormat (env.now + 1)
      else sessionIDFormat env.now
    | none => sessionIDFormat env.now

theorem ensure_active (env : CallEnv) (now : Nat) (s : MState) (id : Nat)
    (hid : s.currentSessionID = some id) :
    ensureSessionStarted env now s = (s, none) := by
  unfold ensureSessionStarted
  rw [hid]
  rfl

theorem ensure_fresh (env : CallEnv) (s : MState)
    (h0 : s.currentSessionID = none)
    (hcf : env.createFault = false)
    (hmem : flushSessionID env s ∉ s.store.sessionIds)
    (hrec : ¬ (env.hasRecorder ∧ env.recStartFails)) :
    ensureSessionStarted env env.now s =
      ({ s with
          currentSessionID := some (flushSessionID env s)
          currentStartedAt := some env.now
          store := { s.store with
            sessions := s.store.sessions ++ [(flushSessionID env s, env.now)] }
          events := s.events ++ [.sessionStarted (flushSessionID env s)] }, none) := by
  unfold ensureSessionStarted StoreState.createSessionEnv StoreState.createSession
  unfold flushSessionID at hmem ⊢
  rw [h0] at hmem ⊢
  rw [hcf]
  simp only [Option.isSome_none, Bool.false_eq_true, if_false, if_neg hmem, if_neg hrec]

theorem flushLoop_active (env : CallEnv) (haf : env.appendFault = false)
    (segs : List Segment) :
    ∀ (s : MState) (id : Nat), s.currentSessionID = some id →
      flushLoop env segs s =
        ({ s with
            store := { s.store with
              segments := s.store.segments ++ segs.map (fun sg => (id, sg)) }
            events := s.events ++ segs.map .liveTranscript }, none) := by
  induction segs with
  | nil =>
    intro s id _
    simp [flushLoop]
  | cons sg rest ih =>
    intro s id hid
    unfold flushLoop
    rw [ensure_active env env.now s id hid]
    unfold StoreState.appendSegment
    rw [haf]
    simp only [Bool.false_eq_true, if_false, MState.currentSession, hid, Option.getD_some]
    refine (ih { s with
        currentSessionID := some id
        store := { s.store with segments := s.store.segments ++ [(id, sg)] }
        events := s.events ++ [Event.liveTranscript sg] } id rfl).trans ?_
    simp [List.append_assoc]

theorem flushSessionID_buffer (env : CallEnv) (s : MState) (b : UtteranceBuffer) :
    flushSessionID env { s with buffer := b } = flushSessionID env s := rfl

theorem flushLoop_active_proj (env : CallEnv) (haf : env.appendFault = false)
    (segs : List Segment) (s : MState) (id : Nat) (hid : s.currentSessionID = some id) :
    (flushLoop env segs s).2 = none
    ∧ (flushLoop env segs s).1.buffer = s.buffer
    ∧ (flushLoop env segs s).1.store.segments
        = s.store.segments ++ segs.map (fun sg => (id, sg)) := by
  rw [flushLoop_active env haf segs s id hid]
  exact ⟨rfl, rfl, rfl⟩

/-- What one `flushBuffer` call does when session creation can succeed
(active session, or fresh candidate id and healthy collaborators): no
error, the buffer is drained, and exactly the grouped segments of the
buffered words are appended to the store under the flush's session id. -/
theorem flushBuffer_spec (env : CallEnv) (s : MState)
    (hcf : env.createFault = false) (haf : env.appendFault = false)
    (hstart : s.currentSessionID = none →
      flushSessionID env s ∉ s.store.sessionIds ∧ ¬ (env.hasRecorder ∧ env.recStartFails)) :
    (flushBuffer env s).2 = none
    ∧ (flushBuffer env s).1.buffer = []
    ∧ (flushBuffer env s).1.store.segments
        = s.store.segments
          ++ (GroupWordsBySpeaker env.now s.buffer).map (fun sg => (flushSessionID env s, sg)) := by
  by_cases hw : (s.buffer : List Word).isEmpty
  · have hbn : (s.buffer : List Word) = [] := List.isEmpty_iff.mp hw
    unfold flushBuffer UtteranceBuffer.flush
    simp [hw, hbn, UtteranceBuffer.new, GroupWordsBySpeaker]
  · by_cases hg : (GroupWordsBySpeaker env.now s.buffer).isEmpty
    · have hgn : GroupWordsBySpeaker env.now s.buffer = [] := List.isEmpty_iff.mp hg
      unfold flushBuffer UtteranceBuffer.flush
      simp [hw, hgn, UtteranceBuffer.new]
    · have hred : flushBuffer env s
          = flushLoop env (GroupWordsBySpeaker env.now s.buffer) { s with buffer := [] } := by
        unfold flushBuffer UtteranceBuffer.flush
        simp [hw, hg, UtteranceBuffer.new]
      cases hid : s.currentSessionID with
      | some id =>
        have hfs : flushSessionID env s = id := by unfold flushSessionID; rw [hid]
        have hact := flushLoop_active env haf (GroupWordsBySpeaker env.now s.buffer)
          { s with buffer := [] } id hid
        rw [hred, hact, hfs]
        exact ⟨rfl, rfl, rfl⟩
      | none =>
        obtain ⟨hmem, hrec⟩ := hstart hid
        cases hsegs : GroupWordsBySpeaker env.now s.buffer with
        | nil => rw [hsegs] at hg; simp at hg
        | cons sg rest =>
          rw [hred, hsegs]
          unfold flushLoop
          rw [ensure_fresh env { s with buffer := [] } hid hcf hmem hrec]
          unfold StoreState.appendSegment
          rw [haf]
          simp only [Bool.false_eq_true, if_false, MState.currentSession, Option.getD_some]
          refine ⟨(flushLoop_active_proj env haf rest _ _ rfl).1,
            (flushLoop_active_proj env haf rest _ _ rfl).2.1,
            ((flushLoop_active_proj env haf rest _ _ rfl).2.2).trans ?_⟩
          simp [List.append_assoc, flushSessionID_buffer]

theorem utteranceEnd_spec (env : CallEnv) (s : MState)
    (hcf : env.createFault = false) (haf : env.appendFault = false)
    (hstart : s.currentSessionID = none →
      flushSessionID env s ∉ s.store.sessionIds ∧ ¬ (env.hasRecorder ∧ env.recStartFails)) :
    (UtteranceEnd env s).2 = none
    ∧ (UtteranceEnd env s).1.buffer = []
    ∧ (UtteranceEnd env s).1.store.segments
        = s.store.segments
          ++ (GroupWordsBySpeaker env.now s.buffer).map (fun sg => (flushSessionID env s, sg)) := by
  obtain ⟨h2, hbuf, hsegs⟩ := flushBuffer_spec env s hcf haf hstart
  unfold UtteranceEnd
  cases hfb : flushBuffer env s with
  | mk s₁ e =>
    rw [hfb] at h2 hbuf hsegs
    simp only at h2 hbuf hsegs
    subst h2
    exact ⟨rfl, hbuf, hsegs⟩

theorem message_speechfinal_spec (env : CallEnv) (mr : MessageResponse) (s : MState)
    (alt : Alternative) (arest : List Alternative)
    (halt : mr.alternatives = alt :: arest) (hf : mr.isFinal = true) (hsf : mr.speechFinal = true)
    (htr : ¬ trimSpace alt.transcript = "")
    (hcf : env.createFault = false) (haf : env.appendFault = false)
    (hstart : s.currentSessionID = none →
      flushSessionID env s ∉ s.store.sessionIds ∧ ¬ (env.hasRecorder ∧ env.recStartFails)) :
    (Message env mr s).2 = none
    ∧ (Message env mr s).1.buffer = []
    ∧ (Message env mr s).1.store.segments
        = s.store.segments
          ++ (GroupWordsBySpeaker env.now (s.buffer ++ alt.words)).map
              (fun sg => (flushSessionID env s, sg)) := by
  have hred : Message env mr s
      = flushBuffer env
          { s with buffer := s.buffer ++ alt.words
                   detectorCalls := s.detectorCalls ++ [.onSpeech] } := by
    unfold Message
    rw [halt]
    simp [htr, hf, hsf, UtteranceBuffer.addWords]
  have hspec := flushBuffer_spec env
    { s with buffer := s.buffer ++ alt.words
             detectorCalls := s.detectorCalls ++ [.onSpeech] } hcf haf hstart
  rw [hred]
  exact hspec

/-- C1: for every sequence of `is_final=true, speech_final=false`
events, the store is untouched (no session created, no segment
appended) and the words accumulate in the buffer in arrival order; a
following `UtteranceEnd` — or the next `is_final=true,
speech_final=true` event carrying words — drains the buffer and
persists exactly one segment per same-speaker run, the runs
concatenating back to the buffered words: every buffered word appears
in persisted segments exactly once, in arrival order.  (Hypotheses: the
store and recorder are healthy and the flush's candidate session id is
free, so that the lazy session start can succeed.) -/
theorem c1_buffering_discipline
    (evs : List (CallEnv × MessageResponse)) (s : MState) (env : CallEnv)
    (hfin : ∀ p ∈ evs, p.2.isFinal = true ∧ p.2.speechFinal = false)
    (hcf : env.createFault = false) (haf : env.appendFault = false)
    (hstart : (processAll evs s).1.currentSessionID = none →
      flushSessionID env (processAll evs s).1 ∉ (processAll evs s).1.store.sessionIds
      ∧ ¬ (env.hasRecorder ∧ env.recStartFails)) :
    (processAll evs s).2 = none
    ∧ (processAll evs s).1.store = s.store
    ∧ (processAll evs s).1.buffer
        = s.buffer ++ (evs.map (fun p => effectiveWords p.2)).flatten
    ∧ (UtteranceEnd env (processAll evs s).1).2 = none
    ∧ (UtteranceEnd env (processAll evs s).1).1.buffer = []
    ∧ (UtteranceEnd env (processAll evs s).1).1.store.segments
        = s.store.segments
          ++ (speakerRuns (processAll evs s).1.buffer).map
              (fun r => (flushSessionID env (processAll evs s).1, segOfRun env.now r))
    ∧ ((speakerRuns (processAll evs s).1.buffer).map runWords).flatten
        = (processAll evs s).1.buffer
    ∧ ∀ (mr : MessageResponse) (alt : Alternative) (arest : List Alternative),
        mr.alternatives = alt :: arest → mr.isFinal = true → mr.speechFinal = true →
        ¬ trimSpace alt.transcript = "" →
        (Message env mr (processAll evs s).1).2 = none
        ∧ (Message env mr (processAll evs s).1).1.store.segments
            = s.store.segments
              ++ (speakerRuns ((processAll evs s).1.buffer ++ alt.words)).map
                  (fun r => (flushSessionID env (processAll evs s).1, segOfRun env.now r)) := by
  obtain ⟨p2, pst, pbuf, _, _, _⟩ := processAll_buffering evs s hfin
  obtain ⟨u2, ubuf, usegs⟩ := utteranceEnd_spec env (processAll evs s).1 hcf haf hstart
  refine ⟨p2, pst, pbuf, u2, ubuf, ?_, join_speakerRuns _, ?_⟩
  · rw [usegs, pst, group_eq_runs, List.map_map]
    rfl
  · intro mr alt arest halt hf hsf htr
    obtain ⟨m2, _, msegs⟩ :=
      message_speechfinal_spec env mr (processAll evs s).1 alt arest halt hf hsf htr hcf haf hstart
    refine ⟨m2, ?_⟩
    rw [msegs, pst, group_eq_runs, List.map_map]
    rfl

/-- Witness for C1: two buffered words, then `UtteranceEnd`. -/
theorem c1_buffering_discipline_witness :
    (∀ p ∈ [(plainEnv 100, chunk true false "hello world" [word0, word1])],
        p.2.isFinal = true ∧ p.2.speechFinal = false)
    ∧ (UtteranceEnd (plainEnv 101)
        (processAll [(plainEnv 100, chunk true false "hello world" [word0, word1])]
          MState.initial).1).1.store.segments
      = MState.initial.store.segments
        ++ (speakerRuns (processAll [(plainEnv 100, chunk true false "hello world" [word0, word1])]
              MState.initial).1.buffer).map
            (fun r => (flushSessionID (plainEnv 101)
                (processAll [(plainEnv 100, chunk true false "hello world" [word0, word1])]
                  MState.initial).1, segOfRun (plainEnv 101).now r)) :=
  ⟨by decide,
    (c1_buffering_discipline [(plainEnv 100, chunk true false "hello world" [word0, word1])]
      MState.initial (plainEnv 101) (by decide) rfl rfl (by decide)).2.2.2.2.2.1⟩

/-! ### C3 — session ids -/

/-- State invariant at wall-clock upper bound `T`: the in-memory
started-at is cleared whenever the session id is (both are cleared
together in every path of `manager.go`), and every session id and
started-at the process has produced is at most `T`. -/
def Inv (T : Nat) (s : MState) : Prop :=
  (s.currentSessionID = none → s.currentStartedAt = none)
  ∧ (∀ id ∈ s.store.sessionIds, id ≤ T)
  ∧ (∀ t, s.currentStartedAt = some t → t ≤ T)

theorem inv_mono (T T' : Nat) (s : MState) (h : Inv T s) (hle : T ≤ T') : Inv T' s :=
  ⟨h.1, fun id hid => (h.2.1 id hid).trans hle, fun t ht => (h.2.2 t ht).trans hle⟩

theorem inv_initial : Inv 0 MState.initial := by
  refine ⟨fun _ => rfl, ?_, ?_⟩
  · intro id hid
    simp [MState.initial, StoreState.empty, StoreState.sessionIds] at hid
  · intro t ht
    simp [MState.initial] at ht

theorem endSession_sessions (st : StoreState) (fault : Bool) (id t : Nat) (p : String)
    (st' : StoreState) (h : st.endSession fault id t p = .ok st') :
    st'.sessions = st.sessions := by
  unfold StoreState.endSession at h
  split at h
  · cases h
  · split at h
    · cases h
      rfl
    · cases h

theorem inv_ensure (env : CallEnv) (s : MState) (T : Nat)
    (h : Inv T s) (hT : T ≤ env.now) :
    Inv env.now (ensureSessionStarted env env.now s).1 := by
  obtain ⟨h0, hids, hsa⟩ := h
  cases hid : s.currentSessionID with
  | some id =>
    rw [ensure_active env env.now s id hid]
    exact inv_mono T env.now s ⟨h0, hids, hsa⟩ hT
  | none =>
    have hsa0 : s.currentStartedAt = none := h0 hid
    unfold ensureSessionStarted StoreState.createSessionEnv StoreState.createSession
    rw [hid, hsa0]
    simp only [Option.isSome_none, Bool.false_eq_true, if_false, sessionIDFormat]
    by_cases hcf2 : env.createFault = true
    · simp only [if_pos hcf2]
      exact ⟨fun _ => rfl, fun id hm => (hids id hm).trans hT, fun t ht => by simp at ht⟩
    · simp only [if_neg hcf2]
      by_cases hdup : env.now ∈ s.store.sessionIds
      · simp only [if_pos hdup]
        exact ⟨fun _ => rfl, fun id hm => (hids id hm).trans hT, fun t ht => by simp at ht⟩
      · simp only [if_neg hdup]
        have hidsNew : ∀ id, id ∈ (StoreState.sessionIds
            { s.store with sessions := s.store.sessions ++ [(env.now, env.now)] }) →
            id ≤ env.now := by
          intro id hm
          simp only [StoreState.sessionIds, List.map_append, List.mem_append] at hm
          rcases hm with hm | hm
          · exact (hids id hm).trans hT
          · simp at hm
            simp [hm]
        by_cases hrec2 : env.hasRecorder = true ∧ env.recStartFails = true
        · simp only [if_pos hrec2]
          cases hm : StoreState.endSession
              { s.store with sessions := s.store.sessions ++ [(env.now, env.now)] }
              env.endStoreFault env.now env.now "" with
          | ok st₂ =>
            simp only [hm]
            refine ⟨fun _ => rfl, ?_, fun t ht => by simp at ht⟩
            intro id hmem
            have hse := endSession_sessions _ _ _ _ _ _ hm
            simp only [StoreState.sessionIds] at hmem
            rw [hse] at hmem
            exact hidsNew id (by simpa [StoreState.sessionIds] using hmem)
          | error e =>
            simp only [hm]
            exact ⟨fun _ => rfl, hidsNew, fun t ht => by simp at ht⟩
        · simp only [if_neg hrec2]
          refine ⟨fun hc => by simp at hc, hidsNew, ?_⟩
          intro t ht
          simp only [Option.some.injEq] at ht
          rw [← ht]

theorem appendSegment_ok_sessions (st : StoreState) (fault : Bool) (id : Nat) (sg : Segment)
    (st' : StoreState) (h : st.appendSegment fault id sg = .ok st') :
    st'.sessions = st.sessions := by
  unfold StoreState.appendSegment at h
  split at h
  · cases h
  · cases h
    rfl

theorem updateSummary_ok_sessions (st : StoreState) (fault : Bool) (id : Nat)
    (a b c : String) (st' : StoreState) (h : st.updateSummary fault id a b c = .ok st') :
    st'.sessions = st.sessions := by
  unfold StoreState.updateSummary at h
  split at h
  · cases h
  · cases h
    rfl

theorem tryUpdate_sessions (st : StoreState) (fault : Bool) (id : Nat) (a b c : String) :
    (st.tryUpdateSummary fault id a b c).sessions = st.sessions := by
  unfold StoreState.tryUpdateSummary
  cases h : st.updateSummary fault id a b c with
  | ok st' => exact updateSummary_ok_sessions st fault id a b c st' h
  | error e => rfl

/-- `generateSummary` touches only the summary column and the hub: the
in-memory session fields and the session rows are untouched. -/
theorem generateSummary_frame (genv : GenEnv) (id : Nat) (s : MState) :
    (generateSummary genv id s).currentSessionID = s.currentSessionID
    ∧ (generateSummary genv id s).currentStartedAt = s.currentStartedAt
    ∧ (generateSummary genv id s).store.sessions = s.store.sessions := by
  unfold generateSummary
  cases hs : genv.summarizer with
  | none => exact ⟨rfl, rfl, tryUpdate_sessions _ _ _ _ _ _⟩
  | some f =>
    by_cases hg : genv.getSegmentsFault = true
    · simp only [if_pos hg]
      simp [tryUpdate_sessions]
    · simp only [if_neg hg]
      by_cases herr : (f (transcriptOf ((s.store.tryUpdateSummary genv.runningWriteFault id
          "" SummaryRunning "").getSegments id))).isErr = true
      · simp only [if_pos herr]
        simp [tryUpdate_sessions]
      · simp only [if_neg herr]
        cases hupd : (s.store.tryUpdateSummary genv.runningWriteFault id
            "" SummaryRunning "").updateSummary genv.completedWriteFault id
            (f (transcriptOf ((s.store.tryUpdateSummary genv.runningWriteFault id
              "" SummaryRunning "").getSegments id))).summary
            SummaryCompleted
            (f (transcriptOf ((s.store.tryUpdateSummary genv.runningWriteFault id
              "" SummaryRunning "").getSegments id))).preset with
        | error e =>
          refine ⟨rfl, rfl, ?_⟩
          simp [tryUpdate_sessions]
        | ok st' =>
          refine ⟨rfl, rfl, ?_⟩
          simp only
          rw [updateSummary_ok_sessions _ _ _ _ _ _ _ hupd, tryUpdate_sessions]

theorem inv_flushLoop (env : CallEnv) (segs : List Segment) :
    ∀ (s : MState) (T : Nat), Inv T s → T ≤ env.now →
      Inv env.now (flushLoop env segs s).1 := by
  induction segs with
  | nil =>
    intro s T h hT
    exact inv_mono T env.now s h hT
  | cons sg rest ih =>
    intro s T h hT
    unfold flushLoop
    cases he : ensureSessionStarted env env.now s with
    | mk s₁ e =>
      have h₁ : Inv env.now s₁ := by
        have hi := inv_ensure env s T h hT
        rwa [he] at hi
      cases e with
      | some err => exact h₁
      | none =>
        show Inv env.now
          (match s₁.store.appendSegment env.appendFault s₁.currentSession sg with
            | Except.error e => ((s₁, some e) : MState × Option String)
            | Except.ok st => flushLoop env rest
                { s₁ with store := st, events := s₁.events ++ [Event.liveTranscript sg] }).1
        cases ha : s₁.store.appendSegment env.appendFault s₁.currentSession sg with
        | error e2 => exact h₁
        | ok st =>
          have hst : st.sessions = s₁.store.sessions :=
            appendSegment_ok_sessions _ _ _ _ _ ha
          refine ih _ env.now ⟨h₁.1, ?_, h₁.2.2⟩ (le_refl _)
          intro id hm
          refine h₁.2.1 id ?_
          simpa [StoreState.sessionIds, hst] using hm

theorem inv_flushBuffer (env : CallEnv) (s : MState) (T : Nat)
    (h : Inv T s) (hT : T ≤ env.now) :
    Inv env.now (flushBuffer env s).1 := by
  unfold flushBuffer UtteranceBuffer.flush
  have hbuf : Inv T { s with buffer := (UtteranceBuffer.new : List Word) } :=
    ⟨h.1, h.2.1, h.2.2⟩
  by_cases hw : (s.buffer : List Word).isEmpty
  · simp only [hw, if_true]
    exact inv_mono T env.now _ hbuf hT
  · simp only [hw, Bool.false_eq_true, if_false]
    by_cases hg : (GroupWordsBySpeaker env.now s.buffer).isEmpty
    · simp only [hg, if_true]
      exact inv_mono T env.now _ hbuf hT
    · simp only [hg, Bool.false_eq_true, if_false]
      exact inv_flushLoop env _ _ T hbuf hT

theorem inv_message (env : CallEnv) (mr : MessageResponse) (s : MState) (T : Nat)
    (h : Inv T s) (hT : T ≤ env.now) :
    Inv env.now (Message env mr s).1 := by
  unfold Message
  cases mr.alternatives with
  | nil => exact inv_mono T env.now s h hT
  | cons alt arest =>
    by_cases htr : trimSpace alt.transcript = ""
    · simp only [htr, if_true]
      exact inv_mono T env.now s h hT
    · simp only [htr, Bool.false_eq_true, if_false]
      cases hf : mr.isFinal with
      | false =>
        simp only [Bool.not_false, if_true]
        exact inv_mono T env.now _ ⟨h.1, h.2.1, h.2.2⟩ hT
      | true =>
        simp only [Bool.not_true, Bool.false_eq_true, if_false]
        cases hsf : mr.speechFinal with
        | false =>
          simp only [Bool.false_eq_true, if_false]
          exact inv_mono T env.now _ ⟨h.1, h.2.1, h.2.2⟩ hT
        | true =>
          simp only [if_true]
          exact inv_flushBuffer env _ T ⟨h.1, h.2.1, h.2.2⟩ hT

theorem inv_utteranceEnd (env : CallEnv) (s : MState) (T : Nat)
    (h : Inv T s) (hT : T ≤ env.now) :
    Inv env.now (UtteranceEnd env s).1 := by
  unfold UtteranceEnd
  cases hfb : flushBuffer env s with
  | mk s₁ e =>
    have h₁ : Inv env.now s₁ := by
      have hi := inv_flushBuffer env s T h hT
      rwa [hfb] at hi
    cases e with
    | some err => exact h₁
    | none => exact ⟨h₁.1, h₁.2.1, h₁.2.2⟩

theorem inv_endCurrent (env : CallEnv) (s : MState) (T : Nat)
    (h : Inv T s) (hT : T ≤ env.now) :
    Inv env.now (endCurrentSession env s).1 := by
  unfold endCurrentSession
  cases hid : s.currentSessionID with
  | none => exact inv_mono T env.now s h hT
  | some id =>
    by_cases hrec : env.hasRecorder = true ∧ env.recEndFails = true
    · simp only [if_pos hrec]
      exact inv_mono T env.now s h hT
    · simp only [if_neg hrec]
      cases he : s.store.endSession env.endStoreFault id env.now
          (if env.hasRecorder = true then env.recEndPath else "") with
      | error e => exact inv_mono T env.now s h hT
      | ok st =>
        have hst : st.sessions = s.store.sessions := endSession_sessions _ _ _ _ _ _ he
        refine ⟨fun _ => rfl, ?_, fun t ht => by simp at ht⟩
        intro i hm
        refine (h.2.1 i ?_).trans hT
        simpa [StoreState.sessionIds, hst] using hm

theorem inv_endAndSummarize (env : CallEnv) (genv : GenEnv) (s : MState) (T : Nat)
    (h : Inv T s) (hT : T ≤ env.now) :
    Inv env.now (endCurrentSessionAndSummarize env genv s).1 := by
  unfold endCurrentSessionAndSummarize
  cases hec : endCurrentSession env s with
  | mk s₁ rest =>
    have h₁ : Inv env.now s₁ := by
      have hi := inv_endCurrent env s T h hT
      rwa [hec] at hi
    obtain ⟨e, sid⟩ := rest
    cases sid with
    | none => exact h₁
    | some i =>
      obtain ⟨hf1, hf2, hf3⟩ := generateSummary_frame genv i s₁
      refine ⟨?_, ?_, ?_⟩
      · intro hc
        rw [hf2]
        exact h₁.1 (hf1 ▸ hc)
      · intro j hm
        refine h₁.2.1 j ?_
        simpa [StoreState.sessionIds, hf3] using hm
      · intro t ht
        exact h₁.2.2 t (hf2 ▸ ht)

/-- The commands that drive the Manager: provider events, the provider's
utterance-end signal, the HTTP force-end, and the silence-detector
timeout (both of the latter run `endCurrentSession` and detach the
summary task). -/
inductive Cmd where
  | message (env : CallEnv) (mr : MessageResponse)
  | utterance (env : CallEnv)
  | forceEnd (env : CallEnv) (genv : GenEnv)
  | timeout (env : CallEnv) (genv : GenEnv)

/-- The wall clock a command runs at. -/
def cmdNow : Cmd → Nat
  | .message env _ => env.now
  | .utterance env => env.now
  | .forceEnd env _ => env.now
  | .timeout env _ => env.now

def step (s : MState) : Cmd → MState
  | .message env mr => (Message env mr s).1
  | .utterance env => (UtteranceEnd env s).1
  | .forceEnd env genv => (endCurrentSessionAndSummarize env genv s).1
  | .timeout env genv => (endCurrentSessionAndSummarize env genv s).1

/-- Execute a command sequence from a state. -/
def run (s : MState) (cmds : List Cmd) : MState :=
  cmds.foldl step s

/-- The command clocks are nondecreasing starting from `T`. -/
def monoFrom : Nat → List Cmd → Prop
  | _, [] => True
  | T, c :: cs => T ≤ cmdNow c ∧ monoFrom (cmdNow c) cs

/-- The clock after the last command. -/
def endTime : Nat → List Cmd → Nat
  | T, [] => T
  | _, c :: cs => endTime (cmdNow c) cs

theorem inv_step (s : MState) (c : Cmd) (T : Nat)
    (h : Inv T s) (hT : T ≤ cmdNow c) : Inv (cmdNow c) (step s c) := by
  cases c with
  | message env mr => exact inv_message env mr s T h hT
  | utterance env => exact inv_utteranceEnd env s T h hT
  | forceEnd env genv => exact inv_endAndSummarize env genv s T h hT
  | timeout env genv => exact inv_endAndSummarize env genv s T h hT

theorem inv_run (cmds : List Cmd) :
    ∀ (s : MState) (T : Nat), Inv T s → monoFrom T cmds →
      Inv (endTime T cmds) (run s cmds) := by
  induction cmds with
  | nil => intro s T h _; exact h
  | cons c cs ih =>
    intro s T h hm
    exact ih (step s c) (cmdNow c) (inv_step s c T h hm.1) hm.2

/-- C3 (amended): a session's id is the `YYYYMMDDhhmmss` UTC of the
moment its first segment would be persisted, with no collision
adjustment ever applied — the one-second bump compares against the
in-memory `currentStartedAt`, which is cleared together with
`currentSessionID`, so whenever a session is about to be created the
comparison is against the zero time and fails.  A same-second restart
therefore fails `CreateSession` with a duplicate-id error instead of
opening a bumped session; whenever session creation does succeed under
a nondecreasing clock, the new id is `sessionIDFormat now` and is
strictly greater than every id already in the store — in particular
strictly greater than the prior (ended) session's id. -/
theorem c3_session_id_monotone (cmds : List Cmd) (env : CallEnv)
    (hmono : monoFrom 0 cmds)
    (hT : endTime 0 cmds ≤ env.now)
    (h0 : (run MState.initial cmds).currentSessionID = none)
    (hok : (ensureSessionStarted env env.now (run MState.initial cmds)).2 = none) :
    (ensureSessionStarted env env.now (run MState.initial cmds)).1.currentSessionID
        = some (sessionIDFormat env.now)
    ∧ ∀ id ∈ (run MState.initial cmds).store.sessionIds, id < sessionIDFormat env.now := by
  have hinv : Inv (endTime 0 cmds) (run MState.initial cmds) :=
    inv_run cmds MState.initial 0 inv_initial hmono
  have hsa0 : (run MState.initial cmds).currentStartedAt = none := hinv.1 h0
  have hids : ∀ id ∈ (run MState.initial cmds).store.sessionIds, id ≤ env.now :=
    fun id hm => (hinv.2.1 id hm).trans hT
  have hred : ∀ (r : MState × Option String),
      ensureSessionStarted env env.now (run MState.initial cmds) = r → r.2 = none →
      r.1.currentSessionID = some (sessionIDFormat env.now)
      ∧ sessionIDFormat env.now ∉ (run MState.initial cmds).store.sessionIds := by
    intro r hr h2
    unfold ensureSessionStarted StoreState.createSessionEnv StoreState.createSession at hr
    rw [h0, hsa0] at hr
    simp only [Option.isSome_none, Bool.false_eq_true, if_false] at hr
    by_cases hcf : env.createFault = true
    · rw [if_pos hcf] at hr
      rw [← hr] at h2
      simp at h2
    · rw [if_neg hcf] at hr
      by_cases hdup : sessionIDFormat env.now ∈ (run MState.initial cmds).store.sessionIds
      · rw [if_pos hdup] at hr
        rw [← hr] at h2
        simp at h2
      · rw [if_neg hdup] at hr
        by_cases hrec : env.hasRecorder = true ∧ env.recStartFails = true
        · simp only [if_pos hrec] at hr
          rw [← hr] at h2
          simp at h2
        · simp only [if_neg hrec] at hr
          rw [← hr]
          exact ⟨rfl, hdup⟩
  obtain ⟨hid', hnotmem⟩ :=
    hred (ensureSessionStarted env env.now (run MState.initial cmds)) rfl hok
  refine ⟨hid', ?_⟩
  intro id hm
  exact lt_of_le_of_ne (hids id hm) (fun he => hnotmem (he ▸ hm))

/-- A summary-task environment with no summarizer configured and a
healthy store. -/
def genv0 : GenEnv := ⟨none, false, false, false, false, false⟩

/-- Witness for C3: a session created and force-ended at second 100;
the next flush at second 101 gets id 101, strictly above id 100. -/
theorem c3_session_id_monotone_witness :
    (ensureSessionStarted (plainEnv 101) (plainEnv 101).now
        (run MState.initial [Cmd.message (plainEnv 100) (chunk true true "hello" [word0]),
          Cmd.forceEnd (plainEnv 100) genv0])).1.currentSessionID
      = some (sessionIDFormat (plainEnv 101).now)
    ∧ ∀ id ∈ (run MState.initial [Cmd.message (plainEnv 100) (chunk true true "hello" [word0]),
          Cmd.forceEnd (plainEnv 100) genv0]).store.sessionIds,
        id < sessionIDFormat (plainEnv 101).now :=
  c3_session_id_monotone
    [Cmd.message (plainEnv 100) (chunk true true "hello" [word0]),
      Cmd.forceEnd (plainEnv 100) genv0]
    (plainEnv 101) ⟨by decide, by decide, trivial⟩ (by decide) (by decide) (by decide)

/-- C3 counterexample: the claim says that when the id of the moment the
first segment is persisted collides with the prior session's id, one
second is added — so a session force-ended at second 100 followed by a
segment at second 100 would open session 101.  The code instead fails
`CreateSession` with a duplicate-id error: no second session is ever
created, and the store still holds exactly the one session `100`. -/
theorem c3_counterexample :
    (Message (plainEnv 100) (chunk true true "restart" [word1])
        (run MState.initial [Cmd.message (plainEnv 100) (chunk true true "hello" [word0]),
          Cmd.forceEnd (plainEnv 100) genv0])).2
      = some "create session: duplicate id"
    ∧ (Message (plainEnv 100) (chunk true true "restart" [word1])
        (run MState.initial [Cmd.message (plainEnv 100) (chunk true true "hello" [word0]),
          Cmd.forceEnd (plainEnv 100) genv0])).1.store.sessions
      = [(100, 100)] :=
  ⟨by decide, by decide⟩

/-! ### C4 — summary-status ordering -/

theorem tryUpdate_ok (st : StoreState) (id : Nat) (a b c : String) :
    st.tryUpdateSummary false id a b c
      = { st with summaryUpdates := st.summaryUpdates ++ [(id, a, b, c)] } := rfl

theorem tryUpdate_cases (st : StoreState) (fault : Bool) (id : Nat) (a b c : String) :
    st.tryUpdateSummary fault id a b c = st
    ∨ st.tryUpdateSummary fault id a b c
        = { st with summaryUpdates := st.summaryUpdates ++ [(id, a, b, c)] } := by
  cases fault with
  | true => exact Or.inl rfl
  | false => exact Or.inr rfl

/-- What one `generateSummary` run (with a summarizer configured and a
healthy running write) does to the summary-update journal and the hub:
the running write comes first, every later write for this call is
terminal, and every broadcast event is a terminal `summary_ready`. -/
theorem generateSummary_spec (genv : GenEnv) (f : String → SummarizeOutcome) (id : Nat)
    (s : MState) (hsum : genv.summarizer = some f) (hrwf : genv.runningWriteFault = false) :
    ∃ (tail : List (Nat × String × String × String)) (evtail : List Event),
      (generateSummary genv id s).store.summaryUpdates
        = s.store.summaryUpdates ++ (id, "", SummaryRunning, "") :: tail
      ∧ (∀ u ∈ tail, u.1 = id ∧ (u.2.2.1 = SummaryCompleted ∨ u.2.2.1 = SummaryFailed))
      ∧ (generateSummary genv id s).events = s.events ++ evtail
      ∧ (∀ e ∈ evtail, ∃ sm pr,
          e = Event.summaryReady id sm SummaryCompleted pr
          ∨ e = Event.summaryReady id sm SummaryFailed pr) := by
  unfold generateSummary
  rw [hsum, hrwf, tryUpdate_ok]
  by_cases hg : genv.getSegmentsFault = true
  · simp only [if_pos hg]
    rcases tryUpdate_cases { s.store with
        summaryUpdates := s.store.summaryUpdates ++ [(id, "", SummaryRunning, "")] }
        genv.failedWriteFault id "" SummaryFailed "" with hu | hu
    · refine ⟨[], [Event.summaryReady id "" SummaryFailed ""], ?_, ?_, ?_, ?_⟩
      · simp only [hu]
      · intro u hm; simp at hm
      · rfl
      · intro e hm
        simp only [List.mem_singleton] at hm
        exact ⟨"", "", Or.inr hm⟩
    · refine ⟨[(id, "", SummaryFailed, "")], [Event.summaryReady id "" SummaryFailed ""],
        ?_, ?_, ?_, ?_⟩
      · simp only [hu]
        simp
      · intro u hm
        simp only [List.mem_singleton] at hm
        subst hm
        exact ⟨rfl, Or.inr rfl⟩
      · rfl
      · intro e hm
        simp only [List.mem_singleton] at hm
        exact ⟨"", "", Or.inr hm⟩
  · simp only [if_neg hg]
    set st₁ : StoreState := { s.store with
      summaryUpdates := s.store.summaryUpdates ++ [(id, "", SummaryRunning, "")] } with hst₁
    set out : SummarizeOutcome := f (transcriptOf (st₁.getSegments id)) with hout
    by_cases herr : out.isErr = true
    · simp only [if_pos herr]
      rcases tryUpdate_cases st₁ genv.failedWriteFault id "" SummaryFailed out.preset with hu | hu
      · refine ⟨[], [Event.summaryReady id "" SummaryFailed out.preset], ?_, ?_, ?_, ?_⟩
        · rw [hu]
        · intro u hm; simp at hm
        · rfl
        · intro e hm
          simp only [List.mem_singleton] at hm
          exact ⟨"", out.preset, Or.inr hm⟩
      · refine ⟨[(id, "", SummaryFailed, out.preset)],
          [Event.summaryReady id "" SummaryFailed out.preset], ?_, ?_, ?_, ?_⟩
        · rw [hu]
          simp [hst₁]
        · intro u hm
          simp only [List.mem_singleton] at hm
          subst hm
          exact ⟨rfl, Or.inr rfl⟩
        · rfl
        · intro e hm
          simp only [List.mem_singleton] at hm
          exact ⟨"", out.preset, Or.inr hm⟩
    · simp only [if_neg herr]
      cases hupd : st₁.updateSummary genv.completedWriteFault id out.summary
          SummaryCompleted out.preset with
      | error e =>
        rcases tryUpdate_cases st₁ genv.failedWriteFault id "" SummaryFailed out.preset with hu | hu
        · refine ⟨[], [Event.summaryReady id "" SummaryFailed out.preset], ?_, ?_, ?_, ?_⟩
          · rw [hu]
          · intro u hm; simp at hm
          · rfl
          · intro e hm
            simp only [List.mem_singleton] at hm
            exact ⟨"", out.preset, Or.inr hm⟩
        · refine ⟨[(id, "", SummaryFailed, out.preset)],
            [Event.summaryReady id "" SummaryFailed out.preset], ?_, ?_, ?_, ?_⟩
          · rw [hu]
            simp [hst₁]
          · intro u hm
            simp only [List.mem_singleton] at hm
            subst hm
            exact ⟨rfl, Or.inr rfl⟩
          · rfl
          · intro e hm
            simp only [List.mem_singleton] at hm
            exact ⟨"", out.preset, Or.inr hm⟩
      | ok st₂ =>
        have hst₂ : st₂ = { st₁ with
            summaryUpdates := st₁.summaryUpdates ++ [(id, out.summary, SummaryCompleted, out.preset)] } := by
          unfold StoreState.updateSummary at hupd
          split at hupd
          · cases hupd
          · cases hupd; rfl
        refine ⟨[(id, out.summary, SummaryCompleted, out.preset)],
          [Event.summaryReady id out.summary SummaryCompleted out.preset], ?_, ?_, ?_, ?_⟩
        · rw [hst₂]
          simp [hst₁]
        · intro u hm
          simp only [List.mem_singleton] at hm
          subst hm
          exact ⟨rfl, Or.inl rfl⟩
        · rfl
        · intro e hm
          simp only [List.mem_singleton] at hm
          exact ⟨out.summary, out.preset, Or.inl hm⟩

theorem endCurrent_success (env : CallEnv) (s : MState) (id : Nat)
    (hid : s.currentSessionID = some id)
    (hrec : ¬ (env.hasRecorder ∧ env.recEndFails))
    (hesf : env.endStoreFault = false)
    (hmem : id ∈ s.store.sessionIds) :
    endCurrentSession env s =
      ({ s with
          store := { s.store with endedSessions := s.store.endedSessions
            ++ [(id, env.now, if env.hasRecorder then env.recEndPath else "")] }
          currentSessionID := none
          currentStartedAt := none
          events := s.events
            ++ [Event.sessionEnded id ((env.now : Int) - (s.currentStartedAt.getD 0 : Nat))] },
        none, some id) := by
  unfold endCurrentSession StoreState.endSession
  rw [hid, hesf]
  simp [hrec, hmem]

/-- C4 (amended): for every ended session with a summarizer configured,
the detached summary task's first store write is `summary_status =
running`, every later write of the task is terminal
(`completed`/`failed`), `session_ended` is broadcast before any
`summary_ready` for the session, and every `summary_ready` broadcast
carries a terminal status — the code never broadcasts a running
`summary_ready`, and with no summarizer it writes `completed` directly
without a running write. -/
theorem c4_summary_status_ordering (env : CallEnv) (genv : GenEnv)
    (f : String → SummarizeOutcome) (s : MState) (id : Nat)
    (hid : s.currentSessionID = some id)
    (hrec : ¬ (env.hasRecorder ∧ env.recEndFails))
    (hesf : env.endStoreFault = false)
    (hmem : id ∈ s.store.sessionIds)
    (hsum : genv.summarizer = some f)
    (hrwf : genv.runningWriteFault = false) :
    ∃ (dur : Int) (tail : List (Nat × String × String × String)) (evtail : List Event),
      (endCurrentSessionAndSummarize env genv s).1.store.summaryUpdates
        = s.store.summaryUpdates ++ (id, "", SummaryRunning, "") :: tail
      ∧ (∀ u ∈ tail, u.1 = id ∧ (u.2.2.1 = SummaryCompleted ∨ u.2.2.1 = SummaryFailed))
      ∧ (endCurrentSessionAndSummarize env genv s).1.events
          = s.events ++ Event.sessionEnded id dur :: evtail
      ∧ (∀ e ∈ evtail, ∃ sm pr,
          e = Event.summaryReady id sm SummaryCompleted pr
          ∨ e = Event.summaryReady id sm SummaryFailed pr) := by
  have hend := endCurrent_success env s id hid hrec hesf hmem
  unfold endCurrentSessionAndSummarize
  rw [hend]
  obtain ⟨tail, evtail, h1, h2, h3, h4⟩ := generateSummary_spec genv f id
    { s with
        store := { s.store with endedSessions := s.store.endedSessions
          ++ [(id, env.now, if env.hasRecorder then env.recEndPath else "")] }
        currentSessionID := none
        currentStartedAt := none
        events := s.events
          ++ [Event.sessionEnded id ((env.now : Int) - (s.currentStartedAt.getD 0 : Nat))] }
    hsum hrwf
  refine ⟨(env.now : Int) - (s.currentStartedAt.getD 0 : Nat), tail, evtail, h1, h2, ?_, h4⟩
  rw [h3]
  simp

/-- A summarizer behaviour that always succeeds, and a summary-task
environment using it with a healthy store. -/
def fOK : String → SummarizeOutcome := fun _ => ⟨"S", "default", false⟩

def genvOK : GenEnv := ⟨some fOK, false, false, false, false, false⟩

/-- `true` exactly on a `summary_ready` broadcast with running status. -/
def isRunningSummaryEvent : Event → Bool
  | Event.summaryReady _ _ st _ => st == SummaryRunning
  | _ => false

/-- C4 counterexample: the claim says the summary task broadcasts a
`summary_ready` with running status before the terminal one.  In a run
where a session is created, force-ended, and successfully summarized,
the broadcast log is `session_started, live_transcript, session_ended,
summary_ready(completed)` — no running `summary_ready` is ever
broadcast. -/
theorem c4_counterexample :
    (endCurrentSessionAndSummarize (plainEnv 100) genvOK
        (Message (plainEnv 100) (chunk true true "hello" [word0]) MState.initial).1).1.events
      = [Event.sessionStarted 100,
          Event.liveTranscript ⟨0, "hello", 0, 1, 100⟩,
          Event.sessionEnded 100 0,
          Event.summaryReady 100 "S" SummaryCompleted "default"]
    ∧ ((endCurrentSessionAndSummarize (plainEnv 100) genvOK
        (Message (plainEnv 100) (chunk true true "hello" [word0]) MState.initial).1).1.events.filter
          isRunningSummaryEvent) = [] :=
  ⟨by decide, by decide⟩

/-- Witness for C4 at a concrete ended session. -/
theorem c4_summary_status_ordering_witness :
    ∃ (dur : Int) (tail : List (Nat × String × String × String)) (evtail : List Event),
      (endCurrentSessionAndSummarize (plainEnv 100) genvOK
          (Message (plainEnv 100) (chunk true true "hello" [word0])
            MState.initial).1).1.store.summaryUpdates
        = (Message (plainEnv 100) (chunk true true "hello" [word0])
            MState.initial).1.store.summaryUpdates ++ (100, "", SummaryRunning, "") :: tail
      ∧ (∀ u ∈ tail, u.1 = 100 ∧ (u.2.2.1 = SummaryCompleted ∨ u.2.2.1 = SummaryFailed))
      ∧ (endCurrentSessionAndSummarize (plainEnv 100) genvOK
          (Message (plainEnv 100) (chunk true true "hello" [word0])
            MState.initial).1).1.events
          = (Message (plainEnv 100) (chunk true true "hello" [word0])
              MState.initial).1.events ++ Event.sessionEnded 100 dur :: evtail
      ∧ (∀ e ∈ evtail, ∃ sm pr,
          e = Event.summaryReady 100 sm SummaryCompleted pr
          ∨ e = Event.summaryReady 100 sm SummaryFailed pr) :=
  c4_summary_status_ordering (plainEnv 100) genvOK fOK
    (Message (plainEnv 100) (chunk true true "hello" [word0]) MState.initial).1 100
    (by decide) (by decide) rfl (by decide) rfl rfl

/-! ### Summarization orchestrator (src/internal/summary) -/

/-- Go's `strings.Fields`: split around runs of white space, no empty
fields.  `cur` carries the current word reversed. -/
def fieldsAux (cur : List Char) : List Char → List (List Char)
  | [] => if cur.isEmpty then [] else [cur.reverse]
  | c :: cs =>
    if c.isWhitespace then
      if cur.isEmpty then fieldsAux [] cs else cur.reverse :: fieldsAux [] cs
    else fieldsAux (c :: cur) cs

def fields (s : String) : List String :=
  (fieldsAux [] s.data).map List.asString

/-- Split a character list at its first `/` (the effect of Go's
`strings.SplitN(model, "/", 2)`); `none` when no slash occurs. -/
def splitFirstSlash : List Char → Option (List Char × List Char)
  | [] => none
  | c :: cs =>
    if c = '/' then some ([], cs)
    else
      match splitFirstSlash cs with
      | none => none
      | some (l, r) => some (c :: l, r)

/-- `llm.ParseModel`: split `provider/model-name` at the first slash;
both halves must be non-empty. -/
def ParseModel (model : String) : Except String (String × String) :=
  match splitFirstSlash model.data with
  | none => .error ("invalid model format " ++ model)
  | some (p, name) =>
    if p.isEmpty ∨ name.isEmpty then .error ("invalid model format " ++ model)
    else .ok (⟨p⟩, ⟨name⟩)

/-- `config.Preset` (`model = ""` models the absent override). -/
structure Preset where
  description : String
  systemPrompt : String
  userTemplate : String
  model : String
  deriving Repr, DecidableEq

/-- `config.Summarization`.  The Go preset map becomes an association
list with distinct names; Go's random map-iteration order corresponds
to the list order. -/
structure Summarization where
  model : String
  presets : List (String × Preset)
  deriving Repr, DecidableEq

def presetNames (cfg : Summarization) : List String :=
  cfg.presets.map Prod.fst

/-- Lexicographic order on character lists (Go compares strings
byte-wise; UTF-8 byte order agrees with code-point order). -/
def charsLe : List Char → List Char → Bool
  | [], _ => true
  | _ :: _, [] => false
  | a :: as, b :: bs => if a = b then charsLe as bs else decide (a < b)

/-- Go's string order (`s1 < s2` as `sort.Strings` sees it), as `≤`. -/
def strLe (a b : String) : Bool :=
  charsLe a.data b.data

/-- `Router.fallbackPreset`: the preset named `default` when present,
else `sort.Strings(keys); keys[0]` — the alphabetically first name
(`""` stands for the panic Go would hit on an empty map, which the
router can never see). -/
def fallbackPreset (cfg : Summarization) : String :=
  if (cfg.presets.lookup "default").isSome then "default"
  else
    match (presetNames cfg).insertionSort (fun a b => strLe a b = true) with
    | [] => ""
    | n :: _ => n

/-- `SampleTranscript` (router.go): first/middle/last word windows,
joined with `\n\n[...]\n\n`; the whole transcript when short enough. -/
def SampleTranscript (transcript : String) (firstN midN lastN : Nat) : String :=
  let words := fields transcript
  let total := words.length
  if total ≤ firstN + midN + lastN then transcript
  else
    let first := String.intercalate " " (words.take firstN)
    let midStart := (total - midN) / 2
    let mid := String.intercalate " " ((words.drop midStart).take midN)
    let last := String.intercalate " " (words.drop (total - lastN))
    first ++ "\n\n[...]\n\n" ++ mid ++ "\n\n[...]\n\n" ++ last

/-- The enumerated preset list of the router prompt. -/
def presetListing (cfg : Summarization) : String :=
  (cfg.presets.map (fun p => "- " ++ p.1 ++ ": " ++ p.2.description ++ "\n")).foldl
    (fun a b => a ++ b) ""

/-- The router's single user prompt. -/
def routerPromptOf (cfg : Summarization) (transcript : String) : String :=
  "Given this conversation excerpt, choose the single best summarization preset.\n\nConversation excerpt:\n"
    ++ SampleTranscript transcript 300 200 200
    ++ "\n\nAvailable presets:\n" ++ presetListing cfg
    ++ "Reply with ONLY the preset name, nothing else."

/-- The environment of one LLM interaction: whether the client factory
succeeds, and the completion the provider returns for a prompt. -/
structure LLMEnv where
  clientOk : Bool
  complete : String → Except Unit String

/-- `Router.SelectPreset`: returns (preset name, error, number of LLM
calls made).  Every failure — malformed model, factory failure, LLM
error, unrecognized reply — falls back; the error is always nil. -/
def SelectPreset (cfg : Summarization) (env : LLMEnv) (transcript : String) :
    String × Option String × Nat :=
  let prompt := routerPromptOf cfg transcript
  match ParseModel cfg.model with
  | .error _ => (fallbackPreset cfg, none, 0)
  | .ok _ =>
    if !env.clientOk then (fallbackPreset cfg, none, 0)
    else
      match env.complete prompt with
      | .error _ => (fallbackPreset cfg, none, 1)
      | .ok result =>
        let chosen := trimSpace result
        if (cfg.presets.lookup chosen).isSome then (chosen, none, 1)
        else (fallbackPreset cfg, none, 1)

/-- Environment of one `Summarize` call: the router's LLM interaction,
the summarization client factory, and the summarization completions per
retry attempt. -/
structure SumEnv where
  router : LLMEnv
  clientOk : Bool
  completions : Nat → Except Unit String

/-- The retry loop of `SummarizeWithPreset`: three attempts with fixed
backoff (sleeps are timing-only), returning the first success and the
number of `Complete` calls made. -/
def summaryRetry (completions : Nat → Except Unit String) :
    Except String String × Nat :=
  match completions 0 with
  | .ok r => (.ok r, 1)
  | .error _ =>
    match completions 1 with
    | .ok r => (.ok r, 2)
    | .error _ =>
      match completions 2 with
      | .ok r => (.ok r, 3)
      | .error _ => (.error "summarize failed after retries", 3)

/-- `Summarizer.SummarizeWithPreset` (with the LLM call count): the
`< 20` whitespace-delimited-words short-circuit comes first, then
preset lookup, model parsing, client construction, template rendering
and the retry loop. -/
def SummarizeWithPreset (cfg : Summarization) (env : SumEnv)
    (transcript presetName : String) : Except String String × Nat :=
  if (fields transcript).length < 20 then (.ok "", 0)
  else
    match cfg.presets.lookup presetName with
    | none => (.error ("unknown preset " ++ presetName), 0)
    | some preset =>
      let modelStr := if preset.model = "" then cfg.model else preset.model
      match ParseModel modelStr with
      | .error e => (.error e, 0)
      | .ok _ =>
        if !env.clientOk then (.error "create llm client", 0)
        else summaryRetry env.completions

/-- `Summarizer.selectPreset`: without a router (at most one preset —
`New` builds the router exactly when `len(presets) > 1`), the single
preset name (or `"default"` for an empty map); otherwise the router. -/
def selectPresetM (cfg : Summarization) (env : SumEnv) (transcript : String) :
    String × Option String × Nat :=
  if cfg.presets.length ≤ 1 then
    (match cfg.presets with
      | [] => "default"
      | (n, _) :: _ => n, none, 0)
  else SelectPreset cfg env.router transcript

/-- `Summarizer.Summarize`: preset selection then summarization;
returns ((summary, preset, error), total LLM calls). -/
def Summarize (cfg : Summarization) (env : SumEnv) (transcript : String) :
    (String × String × Option String) × Nat :=
  let sel := selectPresetM cfg env transcript
  match sel.2.1 with
  | some e => (("", "", some ("select preset: " ++ e)), sel.2.2)
  | none =>
    let r := SummarizeWithPreset cfg env transcript sel.1
    match r.1 with
    | .ok summary => ((summary, sel.1, none), sel.2.2 + r.2)
    | .error e => (("", sel.1, some e), sel.2.2 + r.2)

theorem charsLe_total : ∀ as bs : List Char, charsLe as bs = true ∨ charsLe bs as = true := by
  intro as
  induction as with
  | nil => intro bs; left; rfl
  | cons a as ih =>
    intro bs
    cases bs with
    | nil => right; rfl
    | cons b bs' =>
      by_cases hab : a = b
      · subst hab
        rcases ih bs' with h | h
        · left; simpa [charsLe] using h
        · right; simpa [charsLe] using h
      · rcases lt_trichotomy a b with hlt | heq | hgt
        · left; simp [charsLe, hab, hlt]
        · exact absurd heq hab
        · right
          have hba : ¬ b = a := fun e => hab e.symm
          simp [charsLe, hba, hgt]

theorem charsLe_trans :
    ∀ as bs cs : List Char, charsLe as bs = true → charsLe bs cs = true →
      charsLe as cs = true := by
  intro as
  induction as with
  | nil => intro bs cs _ _; rfl
  | cons a as ih =>
    intro bs cs hab hbc
    cases bs with
    | nil => simp [charsLe] at hab
    | cons b bs' =>
      cases cs with
      | nil => simp [charsLe] at hbc
      | cons c cs' =>
        by_cases h1 : a = b
        · subst h1
          by_cases h2 : a = c
          · subst h2
            simp only [charsLe, if_pos rfl] at hab hbc ⊢
            exact ih bs' cs' hab hbc
          · simp only [charsLe, if_pos rfl] at hab
            simp only [charsLe, h2, if_neg h2] at hbc ⊢
            exact hbc
        · by_cases h2 : b = c
          · subst h2
            simp only [charsLe, if_neg h1] at hab ⊢
            exact hab
          · have hlt1 : a < b := by
              simp only [charsLe, if_neg h1] at hab
              exact of_decide_eq_true hab
            have hlt2 : b < c := by
              simp only [charsLe, if_neg h2] at hbc
              exact of_decide_eq_true hbc
            have h3 : ¬ a = c := fun e => absurd (e ▸ hlt1) (asymm hlt2)
            simp only [charsLe, if_neg h3]
            exact decide_eq_true (lt_trans hlt1 hlt2)

instance strLeTotal : IsTotal String fun a b => strLe a b = true :=
  ⟨fun a b => charsLe_total a.data b.data⟩

instance strLeTrans : IsTrans String fun a b => strLe a b = true :=
  ⟨fun a b c => charsLe_trans a.data b.data c.data⟩

theorem fallbackPreset_spec (cfg : Summarization) (hne : cfg.presets ≠ []) :
    ((cfg.presets.lookup "default").isSome → fallbackPreset cfg = "default")
    ∧ ((cfg.presets.lookup "default").isSome = false →
        fallbackPreset cfg ∈ presetNames cfg
        ∧ ∀ n ∈ presetNames cfg, strLe (fallbackPreset cfg) n = true) := by
  by_cases hd : (cfg.presets.lookup "default").isSome
  · refine ⟨fun _ => ?_, fun h => by rw [hd] at h; cases h⟩
    unfold fallbackPreset
    rw [if_pos hd]
  · refine ⟨fun h => absurd h hd, fun _ => ?_⟩
    unfold fallbackPreset
    rw [if_neg hd]
    have hperm := List.perm_insertionSort (fun a b => strLe a b = true) (presetNames cfg)
    have hsorted := List.sorted_insertionSort (r := fun a b => strLe a b = true)
      (presetNames cfg)
    cases hs : (presetNames cfg).insertionSort (fun a b => strLe a b = true) with
    | nil =>
      rw [hs] at hperm
      have : presetNames cfg = [] := hperm.symm.eq_nil
      have : cfg.presets = [] := by
        unfold presetNames at this
        exact List.map_eq_nil_iff.mp this
      exact absurd this hne
    | cons n rest =>
      rw [hs] at hperm hsorted
      constructor
      · exact hperm.subset (List.mem_cons_self n rest)
      · intro m hm
        have hm' : m ∈ n :: rest := hperm.symm.subset hm
        rcases List.mem_cons.mp hm' with rfl | hm''
        · have : charsLe m.data m.data = true := by
            induction m.data with
            | nil => rfl
            | cons c cs ihc => simpa [charsLe] using ihc
          exact this
        · exact (List.pairwise_cons.mp hsorted).1 m hm''

/-- C7: with at least two presets configured, every router failure —
malformed model string, client-construction failure, LLM completion
error, or a trimmed reply that is not a configured preset name — makes
`SelectPreset` return the fallback preset with a nil error: the preset
named `default` when configured, otherwise the alphabetically first
preset name; router failure is never surfaced to the caller. -/
theorem c7_router_fallback (cfg : Summarization) (env : LLMEnv) (transcript : String)
    (hn : 2 ≤ cfg.presets.length)
    (hfail :
      (∃ e, ParseModel cfg.model = .error e)
      ∨ env.clientOk = false
      ∨ (∃ e, env.complete (routerPromptOf cfg transcript) = .error e)
      ∨ (∀ r, env.complete (routerPromptOf cfg transcript) = .ok r →
          (cfg.presets.lookup (trimSpace r)).isSome = false)) :
    (SelectPreset cfg env transcript).1 = fallbackPreset cfg
    ∧ (SelectPreset cfg env transcript).2.1 = none
    ∧ ((cfg.presets.lookup "default").isSome → fallbackPreset cfg = "default")
    ∧ ((cfg.presets.lookup "default").isSome = false →
        fallbackPreset cfg ∈ presetNames cfg
        ∧ ∀ n ∈ presetNames cfg, strLe (fallbackPreset cfg) n = true) := by
  have hne : cfg.presets ≠ [] := by
    intro h
    rw [h] at hn
    simp at hn
  have hfb := fallbackPreset_spec cfg hne
  have hmain : (SelectPreset cfg env transcript).1 = fallbackPreset cfg
      ∧ (SelectPreset cfg env transcript).2.1 = none := by
    unfold SelectPreset
    cases hp : ParseModel cfg.model with
    | error e => exact ⟨rfl, rfl⟩
    | ok pm =>
      cases hc : env.clientOk with
      | false => exact ⟨rfl, rfl⟩
      | true =>
        simp only [Bool.not_true, Bool.false_eq_true, if_false]
        cases hres : env.complete (routerPromptOf cfg transcript) with
        | error e => exact ⟨rfl, rfl⟩
        | ok r =>
          have hnone : (cfg.presets.lookup (trimSpace r)).isSome = false := by
            rcases hfail with ⟨e, he⟩ | hce | ⟨e, he⟩ | hur
            · rw [hp] at he; cases he
            · rw [hc] at hce; cases hce
            · rw [hres] at he; cases he
            · exact hur r hres
          simp [hnone]
  exact ⟨hmain.1, hmain.2, hfb.1, hfb.2⟩

/-- A preset body shared by concrete configurations. -/
def pX : Preset := ⟨"general", "system", "{{transcript}}", ""⟩

/-- Witness for C7: two presets, none named `default`, and a malformed
router model string — the router picks the alphabetically first preset
(`alpha`) with no error. -/
theorem c7_router_fallback_witness :
    (SelectPreset ⟨"bad-model", [("beta", pX), ("alpha", pX)]⟩
        ⟨true, fun _ => Except.ok "garbage"⟩ "hi").1
      = fallbackPreset ⟨"bad-model", [("beta", pX), ("alpha", pX)]⟩
    ∧ (SelectPreset ⟨"bad-model", [("beta", pX), ("alpha", pX)]⟩
        ⟨true, fun _ => Except.ok "garbage"⟩ "hi").2.1 = none
    ∧ (((⟨"bad-model", [("beta", pX), ("alpha", pX)]⟩ :
          Summarization).presets.lookup "default").isSome = false →
        fallbackPreset ⟨"bad-model", [("beta", pX), ("alpha", pX)]⟩
          ∈ presetNames ⟨"bad-model", [("beta", pX), ("alpha", pX)]⟩) :=
  have h := c7_router_fallback ⟨"bad-model", [("beta", pX), ("alpha", pX)]⟩
    ⟨true, fun _ => Except.ok "garbage"⟩ "hi" (by decide)
    (Or.inl ⟨"invalid model format bad-model", rfl⟩)
  ⟨h.1, h.2.1, fun hm => (h.2.2.2 hm).1⟩

/-- The router never surfaces an error. -/
theorem selectPreset_no_error (cfg : Summarization) (env : LLMEnv) (t : String) :
    (SelectPreset cfg env t).2.1 = none := by
  unfold SelectPreset
  cases hp : ParseModel cfg.model with
  | error e => rfl
  | ok pm =>
    cases hc : env.clientOk with
    | false => rfl
    | true =>
      simp only [Bool.not_true, Bool.false_eq_true, if_false]
      cases hres : env.complete (routerPromptOf cfg t) with
      | error e => rfl
      | ok r =>
        by_cases hl : (cfg.presets.lookup (trimSpace r)).isSome
        · simp [hl]
        · simp [hl]

theorem selectPresetM_no_error (cfg : Summarization) (env : SumEnv) (t : String) :
    (selectPresetM cfg env t).2.1 = none := by
  unfold selectPresetM
  by_cases h1 : cfg.presets.length ≤ 1
  · rw [if_pos h1]
  · rw [if_neg h1]
    exact selectPreset_no_error cfg env.router t

theorem selectPresetM_single_calls (cfg : Summarization) (env : SumEnv) (t : String)
    (h : cfg.presets.length ≤ 1) :
    (selectPresetM cfg env t).2.2 = 0 := by
  unfold selectPresetM
  rw [if_pos h]

/-- C6 (amended): for every configuration, `Summarize` on a transcript
with fewer than 20 whitespace-delimited words returns
`("", selected preset, nil)` and `SummarizeWithPreset` makes no LLM
call; with at most one preset (no router) the whole call makes no LLM
call at all — but with two or more presets the router's
preset-selection LLM call still happens before the short-circuit. -/
theorem c6_short_circuit (cfg : Summarization) (env : SumEnv) (transcript : String)
    (hshort : (fields transcript).length < 20) :
    (Summarize cfg env transcript).1
        = ("", (selectPresetM cfg env transcript).1, none)
    ∧ (∀ presetName, SummarizeWithPreset cfg env transcript presetName
        = (Except.ok "", 0))
    ∧ (cfg.presets.length ≤ 1 → (Summarize cfg env transcript).2 = 0) := by
  have hswp : ∀ p, SummarizeWithPreset cfg env transcript p = (Except.ok "", 0) := by
    intro p
    unfold SummarizeWithPreset
    rw [if_pos hshort]
  have hsel := selectPresetM_no_error cfg env transcript
  cases hs : selectPresetM cfg env transcript with
  | mk p rest =>
    obtain ⟨err, calls⟩ := rest
    rw [hs] at hsel
    simp only at hsel
    subst hsel
    have hred : Summarize cfg env transcript = (("", p, none), calls) := by
      unfold Summarize
      rw [hs]
      simp [hswp p]
    refine ⟨?_, hswp, ?_⟩
    · rw [hred]
    · intro hone
      have := selectPresetM_single_calls cfg env transcript hone
      rw [hs] at this
      simp only at this
      rw [hred]
      simp [this]

/-- A two-preset configuration whose router LLM replies `engineering`,
and whose summarization LLM would succeed. -/
def cfg2 : Summarization := ⟨"openai/gpt-4o-mini", [("default", pX), ("engineering", pX)]⟩

def env2 : SumEnv := ⟨⟨true, fun _ => Except.ok "engineering"⟩, true,
  fun _ => Except.ok "## Summary"⟩

/-- C6 counterexample: with two presets configured, `Summarize` on a
two-word transcript does return `("", preset, nil)` — but the router has
already made one LLM call before the short-circuit, so "without making
any LLM call" is false. -/
theorem c6_counterexample :
    (Summarize cfg2 env2 "too short").1 = ("", "engineering", none)
    ∧ (Summarize cfg2 env2 "too short").2 = 1 :=
  ⟨by decide, by decide⟩

/-- Witness for C6 with a single-preset configuration: zero LLM calls. -/
theorem c6_short_circuit_witness :
    ((fields "too short").length < 20)
    ∧ (Summarize ⟨"openai/gpt-4o-mini", [("default", pX)]⟩ env2 "too short").1
        = ("", (selectPresetM ⟨"openai/gpt-4o-mini", [("default", pX)]⟩ env2 "too short").1,
            none)
    ∧ (Summarize ⟨"openai/gpt-4o-mini", [("default", pX)]⟩ env2 "too short").2 = 0 :=
  ⟨by decide,
    (c6_short_circuit ⟨"openai/gpt-4o-mini", [("default", pX)]⟩ env2 "too short"
      (by decide)).1,
    (c6_short_circuit ⟨"openai/gpt-4o-mini", [("default", pX)]⟩ env2 "too short"
      (by decide)).2.2 (by decide)⟩

/-! ### Audio HTTP handler (src — server package, GET /api/sessions/{id}/audio) -/

/-- Split a character list on `/`, keeping empty components. -/
def splitSlash (cs : List Char) : List (List Char) :=
  cs.foldr
    (fun c acc =>
      match acc with
      | [] => [[c]]
      | cur :: rest => if c = '/' then [] :: cur :: rest else (c :: cur) :: rest)
    [[]]

/-- The component loop of Go's lexical `path.Clean`: skip empty and `.`
components; `..` pops the previous component, is dropped at the root,
and accumulates at the front of a relative path.  `acc` is the output
stack, most recent first. -/
def cleanComps (rooted : Bool) : List String → List String → List String
  | [], acc => acc.reverse
  | c :: rest, acc =>
    if c = "" ∨ c = "." then cleanComps rooted rest acc
    else if c = ".." then
      match acc with
      | [] =>
        if rooted then cleanComps rooted rest []
        else cleanComps rooted rest [".."]
      | top :: acc' =>
        if top = ".." then cleanComps rooted rest (".." :: top :: acc')
        else cleanComps rooted rest acc'
    else cleanComps rooted rest (c :: acc)

/-- `filepath.Clean` on a Unix path: purely lexical processing of the
components, returning `.` for an empty result and preserving
rootedness. -/
def Clean (path : String) : String :=
  if path = "" then "."
  else
    let rooted := path.data.head? = some '/'
    let comps := (splitSlash path.data).map (fun l => (⟨l⟩ : String))
    let out := cleanComps (decide rooted) comps []
    let joined := String.intercalate "/" out
    let result := if decide rooted then "/" ++ joined else joined
    if result = "" then "." else result

def isPrefixChars : List Char → List Char → Bool
  | [], _ => true
  | _ :: _, [] => false
  | p :: ps, c :: cs => p = c && isPrefixChars ps cs

/-- `strings.Contains(s, "..")`. -/
def containsDotDotChars : List Char → Bool
  | [] => false
  | c :: cs => isPrefixChars ['.', '.'] (c :: cs) || containsDotDotChars cs

def stringContainsDotDot (s : String) : Bool :=
  containsDotDotChars s.data

/-- `filepath.IsAbs` on Unix: the path begins with `/`. -/
def isAbs (s : String) : Bool :=
  s.data.head? = some '/'

/-- The observable outcome of the audio handler up to the point a file
would be opened: an HTTP status written without opening any file, or
the `os.Open(cleanPath)` call being reached. -/
inductive AudioResult where
  | status (code : Nat)
  | openFile (path : String)
  deriving Repr, DecidableEq

/-- The `GET /api/sessions/{id}/audio` handler: session-id validation
(403), session lookup (404), missing audio path (404), then the path
checks on `filepath.Clean(audio_path)` — empty, `.`, `..`, containing
`..`, or absolute → 403 — and only then `os.Open(cleanPath)`.
`session = none` models a failed `GetSession`; `some p` a session whose
stored `audio_path` is `p`. -/
def audioHandler (validID : Bool) (session : Option String) : AudioResult :=
  if !validID then .status 403
  else
    match session with
    | none => .status 404
    | some audioPath =>
      if audioPath = "" then .status 404
      else
        let cleanPath := Clean audioPath
        if cleanPath = "" ∨ cleanPath = "." ∨ cleanPath = ".."
            ∨ stringContainsDotDot cleanPath = true then .status 403
        else if isAbs cleanPath = true then .status 403
        else .openFile cleanPath

theorem data_slash_append (j : String) : ("/" ++ j).data = '/' :: j.data := by
  cases j with
  | mk d => rfl

theorem clean_isAbs (path : String) (h : isAbs path = true) :
    isAbs (Clean path) = true := by
  have hne : ¬ path = "" := by
    intro he
    rw [he] at h
    simp [isAbs] at h
  have hr : path.data.head? = some '/' := by
    simpa [isAbs] using h
  unfold Clean
  rw [if_neg hne]
  simp only [decide_eq_true hr]
  by_cases hres : ("/" ++ String.intercalate "/"
      (cleanComps true ((splitSlash path.data).map (fun l => (⟨l⟩ : String))) [])) = ""
  · exfalso
    have := congrArg String.data hres
    rw [data_slash_append] at this
    cases this
  · simp only [if_pos, if_neg hres, if_true]
    unfold isAbs
    simp [data_slash_append]

/-- C9 (amended): the handler applies the path checks to the lexically
cleaned stored path, `filepath.Clean(audio_path)`.  Every audio request
for a session whose non-empty stored path cleans to `.` or `..`, still
contains `..` after cleaning, or is absolute, is answered 403 with no
file opened.  A stored path whose `..` segments are resolved away by
cleaning (such as `x/../y.mp3`) is not rejected: the claim's check on
the raw path does not exist. -/
theorem c9_audio_path_safety (validID : Bool) (audioPath : String)
    (hne : ¬ audioPath = "")
    (h : Clean audioPath = "." ∨ Clean audioPath = ".."
      ∨ stringContainsDotDot (Clean audioPath) = true
      ∨ isAbs audioPath = true) :
    audioHandler validID (some audioPath) = .status 403 := by
  cases validID with
  | false => rfl
  | true =>
    by_cases hc : Clean audioPath = "" ∨ Clean audioPath = "." ∨ Clean audioPath = ".."
        ∨ stringContainsDotDot (Clean audioPath) = true
    · simp [audioHandler, hne, hc]
    · have habs : isAbs (Clean audioPath) = true := by
        rcases h with h1 | h1 | h1 | h1
        · exact absurd (Or.inr (Or.inl h1)) hc
        · exact absurd (Or.inr (Or.inr (Or.inl h1))) hc
        · exact absurd (Or.inr (Or.inr (Or.inr h1))) hc
        · exact clean_isAbs audioPath h1
      simp [audioHandler, hne, hc, habs]

/-- Witness for C9: a stored path that still contains `..` after
cleaning is rejected with 403. -/
theorem c9_audio_path_safety_witness :
    audioHandler true (some "../y.mp3") = .status 403 :=
  c9_audio_path_safety true "../y.mp3" (by decide)
    (Or.inr (Or.inr (Or.inl (by decide))))

/-- C9 counterexample: the claim rejects every stored path containing
the substring `..`, but the handler checks the cleaned path:
`x/../y.mp3` contains `..` and is nevertheless accepted — the checks
pass on `Clean("x/../y.mp3") = "y.mp3"` and `os.Open` is reached. -/
theorem c9_counterexample :
    stringContainsDotDot "x/../y.mp3" = true
    ∧ audioHandler true (some "x/../y.mp3") = .openFile "y.mp3" :=
  ⟨by decide, by decide⟩
